import Mathlib

/-!
Verification development for the FreeboxMachine reconciler
(`internal/controller/freeboxmachine_controller.go`, most complete variant).

The Go code is shallowly embedded: strings are Lean `String`s (lists of
characters), the Go `path` package helpers (`Ext`, `Base`, `Join`/`Clean`)
and ASCII `strings.ToLower` are re-implemented below, the Kubernetes /
Freebox remote calls are modelled by an environment of response functions,
and one invocation of `Reconcile` is a pure function from the persisted
machine state and that environment to a result, the updated machine and the
ordered list of calls (events) the invocation performed.
-/

namespace FreeboxCAPI

/-! ## ASCII case folding (model of Go `strings.ToLower` on ASCII data) -/

/-- ASCII lower-casing of one character, as Go does for ASCII input. -/
def lowerChar (c : Char) : Char :=
  if 65 ≤ c.toNat ∧ c.toNat ≤ 90 then Char.ofNat (c.toNat + 32) else c

/-- Lower-case a character list. -/
def lowers (s : List Char) : List Char := s.map lowerChar

/-- Model of `strings.ToLower` (ASCII). -/
def toLowerS (s : String) : String := ⟨lowers s.data⟩

/-! ## Go `path` package: `Ext`, `Base`, `Clean`, `Join` -/

/-- Helper for `path.Ext`: scan the reversed path; `acc` holds the already
scanned characters in forward order.  Stops at `/`; on the first `.` returns
the extension (dot included). -/
def extAux : List Char → List Char → List Char
  | _, [] => []
  | acc, c :: rest =>
    if c = '/' then []
    else if c = '.' then c :: acc
    else extAux (c :: acc) rest

/-- Model of Go `path.Ext`: the suffix starting at the final dot of the final
slash-separated element, `""` if there is none. -/
def pathExt (s : String) : String := ⟨extAux [] s.data.reverse⟩

/-- Model of Go `path.Base`. -/
def pathBase (s : String) : String :=
  if s.data = [] then "." else
  let t := (s.data.reverse.dropWhile (· = '/')).reverse
  let u := (t.reverse.takeWhile (· ≠ '/')).reverse
  if u = [] then "/" else ⟨u⟩

/-- Split a character list on `'/'` (every separator produces a boundary;
`splitSlash "" = [[]]`). -/
def splitSlash : List Char → List (List Char)
  | [] => [[]]
  | c :: rest =>
    if c = '/' then [] :: splitSlash rest
    else
      match splitSlash rest with
      | [] => [[c]]
      | h :: t => (c :: h) :: t

/-- Component processing of Go `path.Clean`: drop empty and `.` components,
resolve `..` against the stack (`acc` is the reversed output stack). -/
def cleanParts (rooted : Bool) : List (List Char) → List (List Char) → List (List Char)
  | acc, [] => acc.reverse
  | acc, p :: ps =>
    if p = [] ∨ p = ['.'] then cleanParts rooted acc ps
    else if p = ['.', '.'] then
      match acc with
      | [] => if rooted then cleanParts rooted [] ps else cleanParts rooted [['.', '.']] ps
      | q :: qs =>
        if q = ['.', '.'] then cleanParts rooted (p :: acc) ps else cleanParts rooted qs ps
    else cleanParts rooted (p :: acc) ps

/-- Join path components with slashes. -/
def joinSlash : List (List Char) → List Char
  | [] => []
  | [p] => p
  | p :: ps => p ++ '/' :: joinSlash ps

/-- Model of Go `path.Clean` (component-stack formulation). -/
def pathClean (s : String) : String :=
  if s.data = [] then "." else
  let rooted := s.data.head? = some '/'
  let parts := cleanParts rooted [] (splitSlash s.data)
  if parts = [] then (if rooted then "/" else ".")
  else if rooted then ⟨'/' :: joinSlash parts⟩
  else ⟨joinSlash parts⟩

/-- Model of Go `path.Join` of two elements: join the non-empty ones with a
slash and `Clean` the result; `""` when both are empty. -/
def pathJoin (a b : String) : String :=
  if a.data = [] ∧ b.data = [] then ""
  else if a.data = [] then pathClean b
  else if b.data = [] then pathClean a
  else pathClean ⟨a.data ++ '/' :: b.data⟩

/-! ## Scanf / regex models (only the message shapes this controller emits) -/

/-- Match a literal at the head of `s`; return the rest on success. -/
def takeAfterLit : List Char → List Char → Option (List Char)
  | [], s => some s
  | _ :: _, [] => none
  | a :: as, b :: bs => if a = b then takeAfterLit as bs else none

/-- Leading decimal digits of `s` as a number, `none` when `s` does not start
with a digit (model of a failed `%d` conversion, which leaves the Go variable
at `0`). -/
def parseLeadNat (s : List Char) : Option Nat :=
  let ds := s.takeWhile Char.isDigit
  if ds = [] then none
  else some (ds.foldl (fun a c => a * 10 + (c.toNat - 48)) 0)

/-- Model of `fmt.Sscanf(msg, "phase=%s task_id=%d", &phase, &taskID)`:
returns the phase token and the task id (zero values on conversion failure,
as in Go). -/
def parsePhaseMsg (msg : String) : String × Int :=
  match takeAfterLit "phase=".data msg.data with
  | none => ("", 0)
  | some rest =>
    let tok := rest.takeWhile (· ≠ ' ')
    if tok = [] then ("", 0)
    else
      match takeAfterLit " task_id=".data (rest.drop tok.length) with
      | none => (⟨tok⟩, 0)
      | some r3 =>
        match parseLeadNat r3 with
        | none => (⟨tok⟩, 0)
        | some n => (⟨tok⟩, Int.ofNat n)

/-- First occurrence of literal `pat` inside `s`: `(before, after)`. -/
def searchLit (pat : List Char) : List Char → Option (List Char × List Char)
  | [] => match takeAfterLit pat [] with
          | some r => some ([], r)
          | none => none
  | c :: rest =>
    match takeAfterLit pat (c :: rest) with
    | some r => some ([], r)
    | none =>
      match searchLit pat rest with
      | some (b, a) => some (c :: b, a)
      | none => none

/-- Last occurrence of literal `pat` inside `s`: `(before, after)` (prefers a
match starting later in the list). -/
def searchLitLast (pat : List Char) : List Char → Option (List Char × List Char)
  | [] => (takeAfterLit pat []).map (fun r => ([], r))
  | c :: rest =>
    match searchLitLast pat rest with
    | some (b, a) => some (c :: b, a)
    | none => (takeAfterLit pat (c :: rest)).map (fun r => ([], r))

/-! ## Data model (`api/v1alpha1` types, as used by the reconciler) -/

/-- `metav1.Condition` (status `True`/`False` as a Bool; timestamps omitted). -/
structure Condition where
  type : String
  status : Bool
  reason : String
  message : String
deriving Repr, DecidableEq

/-- `clusterv1.MachineAddress` (`type` is `"InternalIP"` for
`clusterv1.MachineInternalIP`). -/
structure MachineAddress where
  type : String
  address : String
deriving Repr, DecidableEq

/-- `FreeboxMachineStatus`; `provisioned` flattens
`Status.Initialization.Provisioned *bool`. -/
structure MachineStatus where
  conditions : List Condition
  vmID : Option Int
  diskPath : String
  addresses : List MachineAddress
  provisioned : Option Bool
deriving Repr, DecidableEq

/-- `FreeboxMachineSpec`. -/
structure MachineSpec where
  providerID : String
  name : String
  vcpus : Int
  memoryMB : Int
  diskSizeBytes : Int
  imageURL : String
deriving Repr, DecidableEq

/-- A `FreeboxMachine` resource: object metadata (name, deletion timestamp
presence, finalizers) plus spec and status. -/
structure Machine where
  name : String
  deleting : Bool
  finalizers : List String
  spec : MachineSpec
  status : MachineStatus
deriving Repr, DecidableEq

def FreeboxMachineFinalizer : String :=
  "freeboxmachine.infrastructure.cluster.x-k8s.io/finalizer"

def ConditionReady : String := "Ready"

/-- `meta.FindStatusCondition`. -/
def findStatusCondition (conds : List Condition) (t : String) : Option Condition :=
  conds.find? (fun c => c.type = t)

/-- `meta.SetStatusCondition`: replace the condition of the same type in
place, or append. -/
def setStatusCondition (conds : List Condition) (c : Condition) : List Condition :=
  if conds.any (fun x => x.type = c.type) then
    conds.map (fun x => if x.type = c.type then c else x)
  else conds ++ [c]

def containsString (slice : List String) (s : String) : Bool :=
  slice.any (fun item => item = s)

def removeString (slice : List String) (s : String) : List String :=
  slice.filter (fun item => item ≠ s)

/-- Update a machine's conditions. -/
def mSetCond (m : Machine) (c : Condition) : Machine :=
  { m with status := { m.status with conditions := setStatusCondition m.status.conditions c } }

/-! ## Image-name helpers (from the controller source) -/

/-- `isCompressedFile`: the (lower-cased) last extension is one of the known
compressed formats. -/
def isCompressedFile (name : String) : Bool :=
  let ext := toLowerS (pathExt name)
  ext = ".gz" ∨ ext = ".xz" ∨ ext = ".bz2" ∨ ext = ".zip" ∨ ext = ".tar"

/-- The suffix list scanned by `stripCompressionSuffix`, in source order. -/
def compressedExts : List String := [".xz", ".gz", ".bz2", ".zip", ".tar"]

/-- `strings.TrimSuffix`. -/
def trimSuffixS (name suf : String) : String :=
  if suf.data.isSuffixOf name.data then ⟨name.data.take (name.data.length - suf.data.length)⟩
  else name

/-- `stripCompressionSuffix`: drop the first matching trailing compression
extension (checked case-insensitively); otherwise trim one `path.Ext`. -/
def stripCompressionSuffix (name : String) : String :=
  match compressedExts.find? (fun e => e.data.isSuffixOf (lowers name.data)) with
  | some e => ⟨name.data.take (name.data.length - e.data.length)⟩
  | none =>
    if pathExt name ≠ "" then trimSuffixS name (pathExt name) else name

/-- `removeCompressionExtension` is an alias for `stripCompressionSuffix`. -/
def removeCompressionExtension (name : String) : String := stripCompressionSuffix name

/-- Lines 175–183 of the reconciler: the extension carried by the final
VM-named image (underlying extension after decompression, `".raw"` when
none). -/
def vmImageExt (imageName : String) : String :=
  let underlyingName :=
    if isCompressedFile imageName then removeCompressionExtension imageName else imageName
  let ext := pathExt underlyingName
  if ext = "" then ".raw" else ext

/-! ## Remote responses, events, reconciler configuration -/

/-- Result of a virtual-machine query (`GetVirtualMachine` /
`CreateVirtualMachine`). -/
structure VMInfo where
  id : Int
  name : String
  mac : String
  status : String
deriving Repr, DecidableEq

/-- A filesystem task (`ExtractFile` / `CopyFiles` / `MoveFiles` /
`GetFileSystemTask` / `RemoveFiles`). -/
structure FsTask where
  id : Int
  state : String
  error : String
deriving Repr, DecidableEq

/-- A virtual-disk task (`GetVirtualDiskTask`). -/
structure DiskTask where
  done : Bool
  error : Bool
deriving Repr, DecidableEq

/-- The owner `Machine`'s bootstrap reference. -/
structure OwnerInfo where
  dataSecretName : Option String
deriving Repr, DecidableEq

/-- One entry of a LAN host's `L3Connectivities`. -/
structure LanL3 where
  type : String
  address : String
deriving Repr, DecidableEq

/-- One LAN-browser host: link-layer identifier and connectivity list. -/
structure LanHost where
  l2id : String
  l3 : List LanL3
deriving Repr, DecidableEq

/-- `freeboxTypes.VirtualMachinePayload` as filled by the reconciler. -/
structure VMPayload where
  name : String
  diskPath : String
  diskType : String
  memory : Int
  vcpus : Int
  os : String
  enableCloudInit : Bool
  cloudInitUserData : String
deriving Repr, DecidableEq

/-- A status-subresource write can succeed, fail with a conflict
(`errors.IsConflict`), or fail otherwise. -/
inductive StUpdErr where
  | conflict
  | other
deriving Repr, DecidableEq

/-- `ctrl.Result`: `requeueAfter` in seconds, `0` meaning no requeue. -/
structure CtrlResult where
  requeueAfter : Nat
deriving Repr, DecidableEq

/-- One call performed by an invocation, in order.  `update` records a write
of metadata/spec (the status subresource is *not* persisted by it);
`statusUpdate` records a write of the status subresource with the status
being written. -/
inductive Event where
  | killVM (id : Int)
  | getVM (id : Int)
  | deleteVM (id : Int)
  | removeFiles (files : List String)
  | update (m : Machine)
  | statusUpdate (st : MachineStatus)
  | addDownloadTask (url dir filename : String)
  | getDownloadTask (id : Int)
  | extractFile (src dst : String)
  | copyFiles (srcs : List String) (dst : String)
  | moveFiles (srcs : List String) (dst : String)
  | getFsTask (id : Int)
  | resizeDisk (path : String) (size : Int)
  | getDiskTask (id : Int)
  | getOwner
  | getSecret (name : String)
  | createVM (p : VMPayload)
  | startVM (id : Int)
  | getLan (iface : String)
  | sleep (secs : Nat)
deriving Repr, DecidableEq

/-- Mocked responses of the remote task client and of the resource store for
one invocation.  `getVMPoll` gives the response of `GetVirtualMachine` at
each attempt of the deletion wait loop. -/
structure Env where
  killVM : Int → Except Unit Unit
  getVM : Int → Except Unit VMInfo
  getVMPoll : Nat → Int → Except Unit VMInfo
  deleteVM : Int → Except Unit Unit
  removeFiles : List String → Except Unit FsTask
  updateRes : Except Unit Unit
  statusUpdateRes : Except StUpdErr Unit
  addDownloadTask : Except Unit Int
  getDownloadTask : Int → Except Unit String
  extractFile : String → String → Except Unit FsTask
  getFsTask : Int → Except Unit FsTask
  copyFiles : List String → String → Except Unit FsTask
  moveFiles : List String → String → Except Unit FsTask
  resizeDisk : String → Int → Except Unit Int
  getDiskTask : Int → Except Unit DiskTask
  owner : Except Unit (Option OwnerInfo)
  getSecret : String → Except Unit (Option String)
  createVM : VMPayload → Except Unit VMInfo
  startVM : Int → Except Unit Unit
  getLan : String → Except Unit (List LanHost)

/-- Reconciler configuration (download directory and VM storage path). -/
structure ReconcilerCfg where
  freeboxDownloadDir : String
  vmStoragePath : String
deriving Repr, DecidableEq

/-- Outcome of one invocation: the returned `ctrl.Result`, the returned
error, the machine as held in memory when returning, and the calls made. -/
structure RecOut where
  result : CtrlResult
  error : Option String
  machine : Machine
  events : List Event
deriving Repr, DecidableEq

/-! ## Deletion protocol (lines 87–153) -/

/-- The bounded stop-wait loop (`for i := 0; i < 30; i++`): poll the VM,
break on query error or on status `"stopped"`, otherwise sleep one second
and try again. -/
def waitForStop (env : Env) (v : Int) : Nat → Nat → List Event
  | _, 0 => []
  | i, n + 1 =>
    Event.getVM v ::
      match env.getVMPoll i v with
      | .error _ => []
      | .ok vm =>
        if vm.status = "stopped" then []
        else Event.sleep 1 :: waitForStop env v (i + 1) n

/-- Finalizer removal at the end of deletion. -/
def deleteFinalize (env : Env) (m : Machine) (evs : List Event) : RecOut :=
  let m1 := { m with finalizers := removeString m.finalizers FreeboxMachineFinalizer }
  let evs := evs ++ [Event.update m1]
  match env.updateRes with
  | .error _ => ⟨⟨0⟩, some "update failed", m1, evs⟩
  | .ok _ => ⟨⟨0⟩, none, m1, evs⟩

/-- Disk-file cleanup: fire-and-forget `RemoveFiles` of the disk and its
`.efivars` companion; a submission error aborts (finalizer kept). -/
def deleteDisk (env : Env) (m : Machine) (evs : List Event) : RecOut :=
  if m.status.diskPath ≠ "" then
    let files := [m.status.diskPath, m.status.diskPath ++ ".efivars"]
    let evs := evs ++ [Event.removeFiles files]
    match env.removeFiles files with
    | .error _ => ⟨⟨0⟩, some "failed to start disk file deletion", m, evs⟩
    | .ok _ => deleteFinalize env m evs
  else deleteFinalize env m evs

/-- Deletion with the finalizer present: force-stop (failure only logged),
wait for `"stopped"` (at most 30 polls, 1 s apart), delete the VM (failure
aborts, finalizer kept), then clean the disk files and drop the finalizer. -/
def reconcileDelete (env : Env) (m : Machine) : RecOut :=
  match m.status.vmID with
  | some v =>
    let evs := Event.killVM v :: (waitForStop env v 0 30 ++ [Event.deleteVM v])
    match env.deleteVM v with
    | .error _ => ⟨⟨0⟩, some "failed to delete VM", m, evs⟩
    | .ok _ => deleteDisk env m evs
  | none => deleteDisk env m []

/-! ## Network discovery and VM lifecycle (lines 556–813) -/

/-- IPv4 extraction from a matching host's connectivity list. -/
def collectIPv4 (host : LanHost) : List MachineAddress :=
  (host.l3.filter (fun l3 => l3.type = "ipv4" ∧ l3.address ≠ "")).map
    (fun l3 => MachineAddress.mk "InternalIP" l3.address)

/-- The MAC search loop over the LAN hosts: both per-host branches return,
so the loop is the first host whose lower-cased link-layer id equals the
lower-cased VM MAC. -/
def findMacHost (mac : String) (hosts : List LanHost) : Option LanHost :=
  hosts.find? (fun host => toLowerS host.l2id = toLowerS mac)

/-- Lines 560–623: VM already created; fetch its MAC, search the LAN
browser, persist addresses when some IPv4 is found, otherwise requeue. -/
def vmDiscovery (env : Env) (m : Machine) (evs : List Event) (v : Int) : RecOut :=
  if m.status.addresses ≠ [] then ⟨⟨0⟩, none, m, evs⟩
  else
    let evs := evs ++ [Event.getVM v]
    match env.getVM v with
    | .error _ => ⟨⟨0⟩, some "failed to get VM details", m, evs⟩
    | .ok vm =>
      let evs := evs ++ [Event.getLan "pub"]
      match env.getLan "pub" with
      | .error _ => ⟨⟨10⟩, none, m, evs⟩
      | .ok lanHosts =>
        match findMacHost vm.mac lanHosts with
        | some host =>
          let addresses := collectIPv4 host
          if addresses ≠ [] then
            let m1 := { m with status := { m.status with addresses := addresses } }
            let evs := evs ++ [Event.statusUpdate m1.status]
            match env.statusUpdateRes with
            | .error _ => ⟨⟨0⟩, some "failed to update status with addresses", m1, evs⟩
            | .ok _ => ⟨⟨0⟩, none, m1, evs⟩
          else ⟨⟨10⟩, none, m, evs⟩
        | none => ⟨⟨10⟩, none, m, evs⟩

/-- Lines 780–810: mark provisioned, set the ready/phase conditions and write
status (conflict ignored). -/
def finishProvision (env : Env) (m : Machine) (evs : List Event) : RecOut :=
  let m := { m with status := { m.status with provisioned := some true } }
  let m := mSetCond m ⟨ConditionReady, true, "VMCreated", "VM created successfully"⟩
  let m := mSetCond m ⟨ConditionReady, true, "InfrastructureReady", "Freebox machine infrastructure is ready"⟩
  let m := mSetCond m ⟨"ImagePhase", true, "Completed", "phase=done"⟩
  let evs := evs ++ [Event.statusUpdate m.status]
  match env.statusUpdateRes with
  | .error StUpdErr.other => ⟨⟨0⟩, some "failed to update status after VM creation", m, evs⟩
  | .error StUpdErr.conflict => ⟨⟨0⟩, none, m, evs⟩
  | .ok _ => ⟨⟨0⟩, none, m, evs⟩

/-- Lines 712–778: record VM id and disk path in the in-memory status, start
the VM, then look for its address in the LAN browser. -/
def vmStartAndDiscover (env : Env) (m : Machine) (evs : List Event)
    (finalImagePath : String) (vm : VMInfo) : RecOut :=
  let m := { m with status := { m.status with vmID := some vm.id, diskPath := finalImagePath } }
  let evs := evs ++ [Event.startVM vm.id]
  match env.startVM vm.id with
  | .error _ => ⟨⟨0⟩, some "failed to start virtual machine", m, evs⟩
  | .ok _ =>
    let evs := evs ++ [Event.getLan "pub"]
    match env.getLan "pub" with
    | .error _ => finishProvision env m evs
    | .ok lanHosts =>
      match findMacHost vm.mac lanHosts with
      | some host =>
        let addresses := collectIPv4 host
        if addresses ≠ [] then
          finishProvision env { m with status := { m.status with addresses := addresses } } evs
        else
          let evs := evs ++ [Event.statusUpdate m.status]
          match env.statusUpdateRes with
          | .error _ => ⟨⟨0⟩, some "failed to update status", m, evs⟩
          | .ok _ => ⟨⟨10⟩, none, m, evs⟩
      | none =>
        let evs := evs ++ [Event.statusUpdate m.status]
        match env.statusUpdateRes with
        | .error _ => ⟨⟨0⟩, some "failed to update status", m, evs⟩
        | .ok _ => ⟨⟨10⟩, none, m, evs⟩

/-- Lines 699–710: set `providerID` (`freebox://<vm-id>`) only when empty,
then continue with start and discovery. -/
def vmAfterCreate (env : Env) (m : Machine) (evs : List Event)
    (finalImagePath : String) (vm : VMInfo) : RecOut :=
  if m.spec.providerID = "" then
    let m1 := { m with spec := { m.spec with providerID := "freebox://" ++ toString vm.id } }
    let evs := evs ++ [Event.update m1]
    match env.updateRes with
    | .error _ => ⟨⟨0⟩, some "failed to update providerID", m1, evs⟩
    | .ok _ => vmStartAndDiscover env m1 evs finalImagePath vm
  else vmStartAndDiscover env m evs finalImagePath vm

/-- Lines 670–678: disk type from the final image's extension
(`.qcow2` → qcow2, else raw; constants from `freeboxTypes`). -/
def diskTypeFor (finalImagePath : String) : String :=
  if toLowerS (pathExt finalImagePath) = ".qcow2" then "qcow2" else "raw"

/-- Lines 629–697: resolve the owner machine and bootstrap data, pick the
disk type from the final image extension and submit VM creation. -/
def vmCreate (env : Env) (m : Machine) (evs : List Event) (finalImagePath : String) : RecOut :=
  let evs := evs ++ [Event.getOwner]
  match env.owner with
  | .error _ => ⟨⟨0⟩, some "failed to get owner Machine", m, evs⟩
  | .ok none => ⟨⟨10⟩, none, m, evs⟩
  | .ok (some ow) =>
    match ow.dataSecretName with
    | none => ⟨⟨10⟩, none, m, evs⟩
    | some secretName =>
      let evs := evs ++ [Event.getSecret secretName]
      match env.getSecret secretName with
      | .error _ => ⟨⟨0⟩, some "failed to get bootstrap data secret", m, evs⟩
      | .ok none => ⟨⟨0⟩, some ("bootstrap secret " ++ secretName ++ " missing value key"), m, evs⟩
      | .ok (some bootstrapData) =>
        let diskType := diskTypeFor finalImagePath
        let vmPayload : VMPayload :=
          ⟨m.name, finalImagePath, diskType, m.spec.memoryMB, m.spec.vcpus,
            "unknown", true, bootstrapData⟩
        let evs := evs ++ [Event.createVM vmPayload]
        match env.createVM vmPayload with
        | .error _ => ⟨⟨0⟩, some "failed to create virtual machine", m, evs⟩
        | .ok vm => vmAfterCreate env m evs finalImagePath vm

/-- Line 559: the idempotency guard — a recorded VM identifier skips
creation and goes to discovery. -/
def afterResize (env : Env) (m : Machine) (evs : List Event) (finalImagePath : String) : RecOut :=
  match m.status.vmID with
  | some v => vmDiscovery env m evs v
  | none => vmCreate env m evs finalImagePath

/-! ## Image pipeline phases (lines 195–523) -/

/-- Lines 198–222: submit the download task and persist
`phase=download task_id=<id>`. -/
def phaseStart (cfg : ReconcilerCfg) (env : Env) (m : Machine) (imageName : String) : RecOut :=
  let evs := [Event.addDownloadTask m.spec.imageURL cfg.freeboxDownloadDir imageName]
  match env.addDownloadTask with
  | .error _ => ⟨⟨0⟩, some "failed to create download task", m, evs⟩
  | .ok newTaskID =>
    let m1 := mSetCond m ⟨"ImagePhase", false, "Downloading",
      "phase=download task_id=" ++ toString newTaskID⟩
    ⟨⟨10⟩, none, m1, evs ++ [Event.statusUpdate m1.status]⟩

/-- Lines 227–272: poll the download task; on `done` classify into extract
or copy; on `error` set a failure condition and fail; otherwise requeue. -/
def phaseDownload (cfg : ReconcilerCfg) (env : Env) (m : Machine)
    (imageName downloadPath finalImagePath : String) (taskID : Int) : RecOut :=
  let evs := [Event.getDownloadTask taskID]
  match env.getDownloadTask taskID with
  | .error _ => ⟨⟨0⟩, some "failed to get download task status", m, evs⟩
  | .ok st =>
    if st = "done" then
      let m1 :=
        if isCompressedFile imageName then
          mSetCond m ⟨"ImagePhase", false, "Extracting",
            "phase=extract task_id=0 src=" ++ downloadPath ++ " dst=" ++ cfg.vmStoragePath⟩
        else
          mSetCond m ⟨"ImagePhase", false, "Copying",
            "phase=copy task_id=0 src=" ++ downloadPath ++ " dst=" ++ finalImagePath⟩
      ⟨⟨1⟩, none, m1, evs ++ [Event.statusUpdate m1.status]⟩
    else if st = "error" then
      let m1 := mSetCond m ⟨"ImagePhase", false, "DownloadFailed", "Image download failed"⟩
      ⟨⟨0⟩, some "download failed", m1, evs ++ [Event.statusUpdate m1.status]⟩
    else ⟨⟨10⟩, none, m, evs⟩

/-- Lines 277–348: submit extraction when no task id is recorded, else poll
it; on completion transition to rename (or directly to resize). -/
def phaseExtract (cfg : ReconcilerCfg) (env : Env) (m : Machine)
    (imageName downloadPath finalImagePath : String) (taskID : Int) : RecOut :=
  if taskID = 0 then
    let evs := [Event.extractFile downloadPath cfg.vmStoragePath]
    match env.extractFile downloadPath cfg.vmStoragePath with
    | .error _ => ⟨⟨0⟩, some "failed to start extraction", m, evs⟩
    | .ok fsTask =>
      let m1 := mSetCond m ⟨"ImagePhase", false, "Extracting",
        "phase=extract task_id=" ++ toString fsTask.id⟩
      ⟨⟨10⟩, none, m1, evs ++ [Event.statusUpdate m1.status]⟩
  else
    let evs := [Event.getFsTask taskID]
    match env.getFsTask taskID with
    | .error _ => ⟨⟨0⟩, some "failed to get extraction task status", m, evs⟩
    | .ok fsTask =>
      if fsTask.state = "done" then
        let extractedPath := pathJoin cfg.vmStoragePath (removeCompressionExtension imageName)
        if extractedPath ≠ finalImagePath then
          let m1 := mSetCond m ⟨"ImagePhase", false, "Renaming",
            "phase=rename task_id=0 src=" ++ extractedPath ++ " dst=" ++ finalImagePath⟩
          ⟨⟨1⟩, none, m1, evs ++ [Event.statusUpdate m1.status]⟩
        else
          let m1 := mSetCond m ⟨"ImagePhase", false, "Resizing", "phase=resize task_id=0"⟩
          ⟨⟨1⟩, none, m1, evs ++ [Event.statusUpdate m1.status]⟩
      else if fsTask.state = "error" then
        let m1 := mSetCond m ⟨"ImagePhase", false, "ExtractionFailed", "Image extraction failed"⟩
        ⟨⟨0⟩, some "extraction failed", m1, evs ++ [Event.statusUpdate m1.status]⟩
      else ⟨⟨10⟩, none, m, evs⟩

/-- Lines 353–423: submit the copy to VM storage when no task id is
recorded, else poll; on completion transition to rename (or to resize). -/
def phaseCopy (cfg : ReconcilerCfg) (env : Env) (m : Machine)
    (imageName downloadPath finalImagePath : String) (taskID : Int) : RecOut :=
  if taskID = 0 then
    let evs := [Event.copyFiles [downloadPath] cfg.vmStoragePath]
    match env.copyFiles [downloadPath] cfg.vmStoragePath with
    | .error _ => ⟨⟨0⟩, some "failed to start copy to VM storage", m, evs⟩
    | .ok fsTask =>
      let m1 := mSetCond m ⟨"ImagePhase", false, "Copying",
        "phase=copy task_id=" ++ toString fsTask.id⟩
      ⟨⟨10⟩, none, m1, evs ++ [Event.statusUpdate m1.status]⟩
  else
    let evs := [Event.getFsTask taskID]
    match env.getFsTask taskID with
    | .error _ => ⟨⟨0⟩, some "failed to get copy task status", m, evs⟩
    | .ok fsTask =>
      if fsTask.state = "done" then
        let copiedPath := pathJoin cfg.vmStoragePath imageName
        if copiedPath ≠ finalImagePath then
          let m1 := mSetCond m ⟨"ImagePhase", false, "Renaming",
            "phase=rename task_id=0 src=" ++ copiedPath ++ " dst=" ++ finalImagePath⟩
          ⟨⟨1⟩, none, m1, evs ++ [Event.statusUpdate m1.status]⟩
        else
          let m1 := mSetCond m ⟨"ImagePhase", false, "Resizing", "phase=resize task_id=0"⟩
          ⟨⟨1⟩, none, m1, evs ++ [Event.statusUpdate m1.status]⟩
      else if fsTask.state = "error" then
        let m1 := mSetCond m ⟨"ImagePhase", false, "CopyFailed", "Image copy failed"⟩
        ⟨⟨0⟩, some "copy failed", m1, evs ++ [Event.statusUpdate m1.status]⟩
      else ⟨⟨10⟩, none, m, evs⟩

/-- Model of the regex parse
`task_id=(\d+) src=(.+) dst=(.+)` of the rename message (greedy first
group, so `src` extends to the last ` dst=`); on no match the task id from
the earlier scanf is kept and paths stay empty, as in the source. -/
def parseRenameMsg (msg : String) (tid0 : Int) : Int × String × String :=
  match searchLit "task_id=".data msg.data with
  | none => (tid0, "", "")
  | some (_, after) =>
    let ds := after.takeWhile Char.isDigit
    if ds = [] then (tid0, "", "")
    else
      match takeAfterLit " src=".data (after.drop ds.length) with
      | none => (tid0, "", "")
      | some r2 =>
        match searchLitLast " dst=".data r2 with
        | none => (tid0, "", "")
        | some (src, dst) =>
          if src ≠ [] ∧ dst ≠ [] then
            (Int.ofNat (ds.foldl (fun a c => a * 10 + (c.toNat - 48)) 0), ⟨src⟩, ⟨dst⟩)
          else (tid0, "", "")

/-- Lines 428–488: rename the produced file to the VM-named path; submit
`MoveFiles` when no task id is recorded, else poll it. -/
def phaseRename (env : Env) (m : Machine) (msg : String) (taskID : Int) : RecOut :=
  let parsed := parseRenameMsg msg taskID
  let tid := parsed.1
  let srcPath := parsed.2.1
  let dstPath := parsed.2.2
  if tid = 0 then
    let evs := [Event.moveFiles [srcPath] dstPath]
    match env.moveFiles [srcPath] dstPath with
    | .error _ => ⟨⟨0⟩, some "failed to start rename", m, evs⟩
    | .ok mvTask =>
      let m1 := mSetCond m ⟨"ImagePhase", false, "Renaming",
        "phase=rename task_id=" ++ toString mvTask.id ++ " src=" ++ srcPath ++ " dst=" ++ dstPath⟩
      ⟨⟨10⟩, none, m1, evs ++ [Event.statusUpdate m1.status]⟩
  else
    let evs := [Event.getFsTask tid]
    match env.getFsTask tid with
    | .error _ => ⟨⟨0⟩, some "failed to get rename task status", m, evs⟩
    | .ok fsTask =>
      if fsTask.state = "done" then
        let m1 := mSetCond m ⟨"ImagePhase", false, "Resizing", "phase=resize task_id=0"⟩
        ⟨⟨1⟩, none, m1, evs ++ [Event.statusUpdate m1.status]⟩
      else if fsTask.state = "error" then
        let m1 := mSetCond m ⟨"ImagePhase", false, "RenameFailed",
          "Image rename failed: " ++ fsTask.error⟩
        ⟨⟨0⟩, some ("rename failed: " ++ fsTask.error), m1, evs ++ [Event.statusUpdate m1.status]⟩
      else ⟨⟨10⟩, none, m, evs⟩

/-- Lines 493–814: submit the disk resize when no task id is recorded, else
poll; when the task is done without error, mark the image ready and fall
through into VM creation / discovery in the same invocation. -/
def phaseResize (env : Env) (m : Machine)
    (finalImagePath : String) (taskID : Int) : RecOut :=
  if taskID = 0 then
    let evs := [Event.resizeDisk finalImagePath m.spec.diskSizeBytes]
    match env.resizeDisk finalImagePath m.spec.diskSizeBytes with
    | .error _ => ⟨⟨0⟩, some "failed to start disk resize", m, evs⟩
    | .ok newTaskID =>
      let m1 := mSetCond m ⟨"ImagePhase", false, "Resizing",
        "phase=resize task_id=" ++ toString newTaskID⟩
      ⟨⟨10⟩, none, m1, evs ++ [Event.statusUpdate m1.status]⟩
  else
    let evs := [Event.getDiskTask taskID]
    match env.getDiskTask taskID with
    | .error _ => ⟨⟨0⟩, some "failed to get resize task status", m, evs⟩
    | .ok t =>
      if t.done then
        if t.error then
          let m1 := mSetCond m ⟨"ImagePhase", false, "ResizeFailed", "Disk resize failed"⟩
          ⟨⟨0⟩, some "resize failed", m1, evs ++ [Event.statusUpdate m1.status]⟩
        else
          let m1 := mSetCond m ⟨"ImageReady", true, "ImageReady",
            "Image downloaded, extracted, renamed, and resized"⟩
          let evs := evs ++ [Event.statusUpdate m1.status]
          match env.statusUpdateRes with
          | .error StUpdErr.other => ⟨⟨0⟩, some "failed to update status after resize", m1, evs⟩
          | .error StUpdErr.conflict => afterResize env m1 evs finalImagePath
          | .ok _ => afterResize env m1 evs finalImagePath
      else ⟨⟨10⟩, none, m, evs⟩

/-! ## Entry point (lines 77–817) -/

/-- Lines 163–523 after the finalizer is ensured: skip when no image URL is
set, otherwise derive the paths, decode the persisted phase from the
`ImagePhase` condition message and dispatch. -/
def reconcileNormal (cfg : ReconcilerCfg) (env : Env) (m : Machine) : RecOut :=
  if m.spec.imageURL = "" then ⟨⟨0⟩, none, m, []⟩
  else
    let imageName := pathBase m.spec.imageURL
    let downloadPath := pathJoin cfg.freeboxDownloadDir imageName
    let finalImagePath := pathJoin cfg.vmStoragePath (m.spec.name ++ vmImageExt imageName)
    let phaseCond := findStatusCondition m.status.conditions "ImagePhase"
    let msg := match phaseCond with
               | none => ""
               | some c => c.message
    let pm := match phaseCond with
              | none => ("", (0 : Int))
              | some c => parsePhaseMsg c.message
    let phase := pm.1
    let taskID := pm.2
    if phase = "" then phaseStart cfg env m imageName
    else if phase = "download" then
      phaseDownload cfg env m imageName downloadPath finalImagePath taskID
    else if phase = "extract" then
      phaseExtract cfg env m imageName downloadPath finalImagePath taskID
    else if phase = "copy" then
      phaseCopy cfg env m imageName downloadPath finalImagePath taskID
    else if phase = "rename" then phaseRename env m msg taskID
    else if phase = "resize" then phaseResize env m finalImagePath taskID
    else ⟨⟨0⟩, none, m, []⟩

/-- One invocation of `Reconcile`: deletion handling, finalizer ensuring,
then the provisioning pipeline. -/
def Reconcile (cfg : ReconcilerCfg) (env : Env) (m : Machine) : RecOut :=
  if m.deleting then
    if containsString m.finalizers FreeboxMachineFinalizer then reconcileDelete env m
    else ⟨⟨0⟩, none, m, []⟩
  else if containsString m.finalizers FreeboxMachineFinalizer then reconcileNormal cfg env m
  else
    let m1 := { m with finalizers := m.finalizers ++ [FreeboxMachineFinalizer] }
    match env.updateRes with
    | .error _ => ⟨⟨0⟩, some "failed to add finalizer", m1, [Event.update m1]⟩
    | .ok _ =>
      let out := reconcileNormal cfg env m1
      { out with events := Event.update m1 :: out.events }

/-! ## Event predicates and trace properties -/

def isCreateVM : Event → Bool
  | .createVM _ => true
  | _ => false

def isStartVM : Event → Bool
  | .startVM _ => true
  | _ => false

def isGetVMEv : Event → Bool
  | .getVM _ => true
  | _ => false

def isSleepEv : Event → Bool
  | .sleep _ => true
  | _ => false

def isStatusUpdateEv : Event → Bool
  | .statusUpdate _ => true
  | _ => false

def isUpdateEv : Event → Bool
  | .update _ => true
  | _ => false

/-- A status that records both the VM identifier and a disk path. -/
def recordsVmAndDisk (st : MachineStatus) : Bool :=
  st.vmID ≠ none ∧ st.diskPath ≠ ""

/-- An event that durably writes a state containing the VM identifier and
disk path (a status write, or — generously — a metadata/spec write whose
in-memory status carries them). -/
def persistsVmAndDisk : Event → Bool
  | .statusUpdate st => recordsVmAndDisk st
  | .update mm => recordsVmAndDisk mm.status
  | _ => false

def vmPersistedBeforeStartAux : Bool → List Event → Bool
  | _, [] => true
  | flag, e :: rest =>
    match e with
    | .startVM _ => flag && vmPersistedBeforeStartAux flag rest
    | _ => vmPersistedBeforeStartAux (flag || persistsVmAndDisk e) rest

/-- Every start-VM call in the trace is preceded by a write that persists
the VM identifier and the disk path. -/
def vmPersistedBeforeStart (evs : List Event) : Bool :=
  vmPersistedBeforeStartAux false evs

/-! ## Concrete fixtures -/

/-- A benign environment; scenarios override the fields they need. -/
def envBase : Env where
  killVM := fun _ => .ok ()
  getVM := fun _ => .error ()
  getVMPoll := fun _ _ => .error ()
  deleteVM := fun _ => .ok ()
  removeFiles := fun _ => .ok ⟨1, "queued", ""⟩
  updateRes := .ok ()
  statusUpdateRes := .ok ()
  addDownloadTask := .ok 11
  getDownloadTask := fun _ => .ok "downloading"
  extractFile := fun _ _ => .ok ⟨21, "queued", ""⟩
  getFsTask := fun _ => .ok ⟨0, "running", ""⟩
  copyFiles := fun _ _ => .ok ⟨22, "queued", ""⟩
  moveFiles := fun _ _ => .ok ⟨23, "queued", ""⟩
  resizeDisk := fun _ _ => .ok 31
  getDiskTask := fun _ => .ok ⟨false, false⟩
  owner := .ok none
  getSecret := fun _ => .ok none
  createVM := fun _ => .error ()
  startVM := fun _ => .ok ()
  getLan := fun _ => .ok []

def cfgBase : ReconcilerCfg := ⟨"/Freebox/Downloads", "/Freebox/VMs"⟩

def specBase : MachineSpec :=
  ⟨"", "node1", 2, 4096, 10737418240, "https://example.com/images/debian.qcow2"⟩

def machineBase : Machine :=
  ⟨"node1", false, [FreeboxMachineFinalizer], specBase, ⟨[], none, "", [], none⟩⟩

/-! ## Claim C10: empty image URL is a quiet no-op -/

/-- Claim C10: for a machine that is not being deleted, already carries the
finalizer and has an empty `Spec.ImageURL`, `Reconcile` makes no call at
all, leaves the machine (status included) unchanged and returns an empty
result with no error and no requeue. -/
theorem C10_empty_image_url_noop (cfg : ReconcilerCfg) (env : Env) (m : Machine)
    (hdel : m.deleting = false)
    (hfin : containsString m.finalizers FreeboxMachineFinalizer = true)
    (hurl : m.spec.imageURL = "") :
    Reconcile cfg env m = ⟨⟨0⟩, none, m, []⟩ := by
  simp [Reconcile, reconcileNormal, hdel, hfin, hurl]

/-- Machine with no image URL, for the C10 witness. -/
def mEmptyURL : Machine :=
  { machineBase with spec := { specBase with imageURL := "" } }

/-- Witness for C10 at a concrete machine. -/
theorem C10_empty_image_url_noop_witness :
    Reconcile cfgBase envBase mEmptyURL = ⟨⟨0⟩, none, mEmptyURL, []⟩ :=
  C10_empty_image_url_noop cfgBase envBase mEmptyURL (by decide) (by decide) (by decide)

/-! ## Claim C1: persist-before-start ordering -/

/-- Machine sitting in the resize phase (task 3 recorded), no VM created
yet. -/
def mC1 : Machine :=
  { machineBase with status := { machineBase.status with
      conditions := [⟨"ImagePhase", false, "Resizing", "phase=resize task_id=3"⟩] } }

/-- Remote responses for a fully successful create-and-start invocation:
resize task done, owner and bootstrap data available, creation returns VM 7
with a MAC that the LAN browser lists (case differing) with one IPv4. -/
def envC1 : Env :=
  { envBase with
    getDiskTask := fun _ => .ok ⟨true, false⟩
    owner := .ok (some ⟨some "bsecret"⟩)
    getSecret := fun _ => .ok (some "udata")
    createVM := fun _ => .ok ⟨7, "node1", "AA:BB:CC:DD:EE:FF", "stopped"⟩
    getLan := fun _ => .ok [⟨"aa:bb:cc:dd:ee:ff", [⟨"ipv4", "192.168.1.50"⟩]⟩] }

/-- Claim C1, evaluated at the failing input: in the invocation that creates
and starts VM 7 (create succeeds, start is issued), no write — status
subresource or otherwise — that records the VM identifier and disk path
precedes the start-VM call; the first such write happens only after start.
The in-memory assignment exists, but the claim's persisted-before-start
ordering (and its crash-recoverability consequence) fails. -/
theorem C1_no_persist_before_start :
    (Reconcile cfgBase envC1 mC1).events.any isCreateVM = true ∧
    (Reconcile cfgBase envC1 mC1).events.any isStartVM = true ∧
    vmPersistedBeforeStart (Reconcile cfgBase envC1 mC1).events = false := by
  constructor
  · decide
  constructor
  · decide
  · decide

/-! ## Claim C7: download failure handling -/

/-- Claim C7: with a persisted download phase, a poll answer of terminal
`"error"` makes the invocation set the `DownloadFailed` condition (with its
human-readable message), write status, and return a fatal error with no
requeue; any other non-`"done"` answer requeues after 10 s, leaves the
machine untouched and reports no error and writes nothing. -/
theorem C7_download_failure (cfg : ReconcilerCfg) (env : Env) (m : Machine)
    (c : Condition) (t : Int)
    (hdel : m.deleting = false)
    (hfin : containsString m.finalizers FreeboxMachineFinalizer = true)
    (hurl : m.spec.imageURL ≠ "")
    (hcond : findStatusCondition m.status.conditions "ImagePhase" = some c)
    (hmsg : parsePhaseMsg c.message = ("download", t)) :
    (env.getDownloadTask t = .ok "error" →
      Reconcile cfg env m =
        ⟨⟨0⟩, some "download failed",
         mSetCond m ⟨"ImagePhase", false, "DownloadFailed", "Image download failed"⟩,
         [Event.getDownloadTask t,
          Event.statusUpdate
            (mSetCond m ⟨"ImagePhase", false, "DownloadFailed", "Image download failed"⟩).status]⟩) ∧
    (∀ st : String, env.getDownloadTask t = .ok st → st ≠ "done" → st ≠ "error" →
      Reconcile cfg env m = ⟨⟨10⟩, none, m, [Event.getDownloadTask t]⟩) := by
  constructor
  · intro henv
    simp [Reconcile, reconcileNormal, phaseDownload, hdel, hfin, hurl, hcond, hmsg, henv]
  · intro st henv h1 h2
    simp [Reconcile, reconcileNormal, phaseDownload, hdel, hfin, hurl, hcond, hmsg, henv, h1, h2]

/-- Machine in the download phase (task 5), for C7's witness. -/
def mDl : Machine :=
  { machineBase with status := { machineBase.status with
      conditions := [⟨"ImagePhase", false, "Downloading", "phase=download task_id=5"⟩] } }

/-- Environment whose download task 5 reports terminal error. -/
def envDlErr : Env := { envBase with getDownloadTask := fun _ => .ok "error" }

/-- Witness for C7: concrete machine in the download phase whose poll says
`"error"`. -/
theorem C7_download_failure_witness :
    Reconcile cfgBase envDlErr mDl =
      ⟨⟨0⟩, some "download failed",
       mSetCond mDl ⟨"ImagePhase", false, "DownloadFailed", "Image download failed"⟩,
       [Event.getDownloadTask 5,
        Event.statusUpdate
          (mSetCond mDl ⟨"ImagePhase", false, "DownloadFailed", "Image download failed"⟩).status]⟩ :=
  (C7_download_failure cfgBase envDlErr mDl
      ⟨"ImagePhase", false, "Downloading", "phase=download task_id=5"⟩ 5
      (by decide) (by decide) (by decide) (by decide) (by decide)).1 rfl

/-! ## Claim C8: deletion protocol for a recorded VM -/

lemma waitForStop_mem (env : Env) (v : Int) :
    ∀ n i e, e ∈ waitForStop env v i n → e = Event.getVM v ∨ e = Event.sleep 1 := by
  intro n
  induction n with
  | zero => intro i e h; simp [waitForStop] at h
  | succ k ih =>
    intro i e h
    rw [waitForStop] at h
    rcases List.mem_cons.mp h with h | h
    · exact Or.inl h
    · revert h
      cases env.getVMPoll i v with
      | error u => intro h; simp at h
      | ok vm =>
        by_cases hs : vm.status = "stopped"
        · intro h; simp [hs] at h
        · intro h
          dsimp only at h
          rw [if_neg hs] at h
          rcases List.mem_cons.mp h with h | h
          · exact Or.inr h
          · exact ih (i + 1) e h

lemma waitForStop_count (env : Env) (v : Int) :
    ∀ n i, (waitForStop env v i n).countP isGetVMEv ≤ n := by
  intro n
  induction n with
  | zero => intro i; simp [waitForStop]
  | succ k ih =>
    intro i
    rw [waitForStop]
    cases env.getVMPoll i v with
    | error u => simp [List.countP_cons, isGetVMEv]
    | ok vm =>
      by_cases hs : vm.status = "stopped"
      · simp [hs, List.countP_cons, isGetVMEv]
      · dsimp only
        rw [if_neg hs]
        have := ih (i + 1)
        simp [List.countP_cons, isGetVMEv]
        omega

lemma deleteFinalize_events (env : Env) (m : Machine) (evs : List Event) :
    ∃ ex, (deleteFinalize env m evs).events = evs ++ ex ∧
      ∀ e ∈ ex, isGetVMEv e = false ∧ isSleepEv e = false := by
  unfold deleteFinalize
  cases env.updateRes with
  | error u => exact ⟨_, rfl, by simp [isGetVMEv, isSleepEv]⟩
  | ok u => exact ⟨_, rfl, by simp [isGetVMEv, isSleepEv]⟩

lemma deleteDisk_events (env : Env) (m : Machine) (evs : List Event) :
    ∃ ex, (deleteDisk env m evs).events = evs ++ ex ∧
      ∀ e ∈ ex, isGetVMEv e = false ∧ isSleepEv e = false := by
  unfold deleteDisk
  by_cases hd : m.status.diskPath ≠ ""
  · rw [if_pos hd]
    dsimp only
    cases hrm : env.removeFiles [m.status.diskPath, m.status.diskPath ++ ".efivars"] with
    | error u =>
      exact ⟨_, rfl, by simp [isGetVMEv, isSleepEv]⟩
    | ok t =>
      obtain ⟨ex, hex, hall⟩ := deleteFinalize_events env m
        (evs ++ [Event.removeFiles [m.status.diskPath, m.status.diskPath ++ ".efivars"]])
      refine ⟨Event.removeFiles [m.status.diskPath, m.status.diskPath ++ ".efivars"] :: ex, ?_, ?_⟩
      · rw [hex, List.append_assoc]
        rfl
      · intro e he
        rcases List.mem_cons.mp he with he | he
        · subst he; exact ⟨rfl, rfl⟩
        · exact hall e he
  · rw [if_neg hd]
    exact deleteFinalize_events env m evs

/-- Claim C8: deleting a machine whose VM identifier is recorded: the
stop-wait loop polls at most 30 times, always at a 1-second interval;
a force-stop failure still reaches the delete call; and a delete failure
returns an error with the finalizer still present and no metadata write
performed. -/
theorem C8_deletion_protocol (cfg : ReconcilerCfg) (env : Env) (m : Machine) (v : Int)
    (hdel : m.deleting = true)
    (hfin : containsString m.finalizers FreeboxMachineFinalizer = true)
    (hvm : m.status.vmID = some v) :
    ((Reconcile cfg env m).events.countP isGetVMEv ≤ 30) ∧
    (∀ s, Event.sleep s ∈ (Reconcile cfg env m).events → s = 1) ∧
    (env.killVM v = .error () → Event.deleteVM v ∈ (Reconcile cfg env m).events) ∧
    (env.deleteVM v = .error () →
      (Reconcile cfg env m).error ≠ none ∧
      containsString (Reconcile cfg env m).machine.finalizers FreeboxMachineFinalizer = true ∧
      ∀ mm, Event.update mm ∉ (Reconcile cfg env m).events) := by
  have hrec : Reconcile cfg env m = reconcileDelete env m := by
    simp [Reconcile, hdel, hfin]
  rw [hrec]
  simp only [reconcileDelete, hvm]
  cases hdv : env.deleteVM v with
  | error u =>
    dsimp only
    refine ⟨?_, ?_, ?_, ?_⟩
    · have h30 := waitForStop_count env v 30 0
      simp [List.countP_cons, List.countP_append, isGetVMEv]
      omega
    · intro s hs
      rcases List.mem_cons.mp hs with h | h
      · exact absurd h (by simp)
      · rcases List.mem_append.mp h with h2 | h2
        · rcases waitForStop_mem env v 30 0 _ h2 with h3 | h3
          · exact absurd h3 (by simp)
          · injection h3
        · exact absurd h2 (by simp)
    · intro _
      simp
    · intro _
      refine ⟨by simp, hfin, ?_⟩
      intro mm hmm
      rcases List.mem_cons.mp hmm with h | h
      · exact absurd h (by simp)
      · rcases List.mem_append.mp h with h2 | h2
        · rcases waitForStop_mem env v 30 0 _ h2 with h3 | h3 <;> simp at h3
        · simp at h2
  | ok u =>
    dsimp only
    obtain ⟨ex, hex, hall⟩ := deleteDisk_events env m
      (Event.killVM v :: (waitForStop env v 0 30 ++ [Event.deleteVM v]))
    refine ⟨?_, ?_, ?_, ?_⟩
    · rw [hex]
      have h30 := waitForStop_count env v 30 0
      have h0 : ex.countP isGetVMEv = 0 := by
        apply List.countP_eq_zero.mpr
        intro e he
        simpa using (hall e he).1
      simp [List.countP_cons, List.countP_append, isGetVMEv, h0]
      omega
    · intro s hs
      rw [hex] at hs
      rcases List.mem_append.mp hs with hs | hs
      · rcases List.mem_cons.mp hs with h | h
        · exact absurd h (by simp)
        · rcases List.mem_append.mp h with h2 | h2
          · rcases waitForStop_mem env v 30 0 _ h2 with h3 | h3
            · exact absurd h3 (by simp)
            · injection h3
          · exact absurd h2 (by simp)
      · have := (hall _ hs).2
        simp [isSleepEv] at this
    · intro _
      rw [hex]
      exact List.mem_append.mpr (Or.inl (by simp))
    · intro hdv2
      simp at hdv2

/-- A machine being deleted, with VM 9 and a disk path recorded. -/
def mDel : Machine :=
  { machineBase with
    deleting := true
    status := { machineBase.status with
      vmID := some 9, diskPath := "/Freebox/VMs/node1.raw" } }

/-- Deletion environment where both the force-stop and the delete call
fail. -/
def envDel : Env :=
  { envBase with killVM := fun _ => .error (), deleteVM := fun _ => .error () }

/-- Witness for C8: despite the failed force-stop the delete call is made,
and its failure leaves an error with the finalizer still present. -/
theorem C8_deletion_protocol_witness :
    Event.deleteVM 9 ∈ (Reconcile cfgBase envDel mDel).events ∧
    (Reconcile cfgBase envDel mDel).error ≠ none ∧
    containsString (Reconcile cfgBase envDel mDel).machine.finalizers
      FreeboxMachineFinalizer = true := by
  have h := C8_deletion_protocol cfgBase envDel mDel 9 (by decide) (by decide) (by decide)
  exact ⟨h.2.2.1 rfl, (h.2.2.2 rfl).1, (h.2.2.2 rfl).2.1⟩

/-! ## Claim C2: no duplicate VM creation -/

@[simp] lemma mSetCond_spec (m : Machine) (c : Condition) : (mSetCond m c).spec = m.spec := rfl

@[simp] lemma mSetCond_name (m : Machine) (c : Condition) : (mSetCond m c).name = m.name := rfl

@[simp] lemma mSetCond_vmID (m : Machine) (c : Condition) :
    (mSetCond m c).status.vmID = m.status.vmID := rfl

@[simp] lemma mSetCond_addresses (m : Machine) (c : Condition) :
    (mSetCond m c).status.addresses = m.status.addresses := rfl

@[simp] lemma mSetCond_diskPath (m : Machine) (c : Condition) :
    (mSetCond m c).status.diskPath = m.status.diskPath := rfl

@[simp] lemma mSetCond_provisioned (m : Machine) (c : Condition) :
    (mSetCond m c).status.provisioned = m.status.provisioned := rfl

lemma finishProvision_no_create (env : Env) (m : Machine) (evs : List Event) (p : VMPayload) :
    Event.createVM p ∈ (finishProvision env m evs).events → Event.createVM p ∈ evs := by
  intro h
  simp only [finishProvision] at h
  repeat' split at h
  all_goals (simp at h; try exact h)

lemma vmDiscovery_no_create (env : Env) (m : Machine) (evs : List Event) (v : Int) (p : VMPayload) :
    Event.createVM p ∈ (vmDiscovery env m evs v).events → Event.createVM p ∈ evs := by
  intro h
  simp only [vmDiscovery] at h
  repeat' split at h
  all_goals (simp at h; try exact h)

lemma vmStartAndDiscover_no_create (env : Env) (m : Machine) (evs : List Event)
    (f : String) (vm : VMInfo) (p : VMPayload) :
    Event.createVM p ∈ (vmStartAndDiscover env m evs f vm).events → Event.createVM p ∈ evs := by
  intro h
  simp only [vmStartAndDiscover] at h
  repeat' split at h
  all_goals (try replace h := finishProvision_no_create _ _ _ _ h)
  all_goals (simp at h; try exact h)

lemma vmAfterCreate_no_create (env : Env) (m : Machine) (evs : List Event)
    (f : String) (vm : VMInfo) (p : VMPayload) :
    Event.createVM p ∈ (vmAfterCreate env m evs f vm).events → Event.createVM p ∈ evs := by
  intro h
  simp only [vmAfterCreate] at h
  repeat' split at h
  all_goals (try replace h := vmStartAndDiscover_no_create _ _ _ _ _ _ h)
  all_goals (simp at h; try exact h)

lemma afterResize_no_create (env : Env) (m : Machine) (evs : List Event)
    (f : String) (v : Int) (p : VMPayload) (hvm : m.status.vmID = some v) :
    Event.createVM p ∈ (afterResize env m evs f).events → Event.createVM p ∈ evs := by
  intro h
  simp only [afterResize, hvm] at h
  exact vmDiscovery_no_create _ _ _ _ _ h

lemma phaseResize_no_create (env : Env) (m : Machine)
    (f : String) (t : Int) (v : Int) (p : VMPayload) (hvm : m.status.vmID = some v) :
    Event.createVM p ∉ (phaseResize env m f t).events := by
  intro h
  simp only [phaseResize] at h
  repeat' split at h
  all_goals (try replace h := afterResize_no_create _ _ _ _ v _ (by simpa using hvm) h)
  all_goals (simp at h; try exact h)

lemma phaseStart_no_create (cfg : ReconcilerCfg) (env : Env) (m : Machine)
    (i : String) (p : VMPayload) :
    Event.createVM p ∉ (phaseStart cfg env m i).events := by
  intro h
  simp only [phaseStart] at h
  repeat' split at h
  all_goals simp at h

lemma phaseDownload_no_create (cfg : ReconcilerCfg) (env : Env) (m : Machine)
    (i d f : String) (t : Int) (p : VMPayload) :
    Event.createVM p ∉ (phaseDownload cfg env m i d f t).events := by
  intro h
  simp only [phaseDownload] at h
  repeat' split at h
  all_goals simp at h

lemma phaseExtract_no_create (cfg : ReconcilerCfg) (env : Env) (m : Machine)
    (i d f : String) (t : Int) (p : VMPayload) :
    Event.createVM p ∉ (phaseExtract cfg env m i d f t).events := by
  intro h
  simp only [phaseExtract] at h
  repeat' split at h
  all_goals simp at h

lemma phaseCopy_no_create (cfg : ReconcilerCfg) (env : Env) (m : Machine)
    (i d f : String) (t : Int) (p : VMPayload) :
    Event.createVM p ∉ (phaseCopy cfg env m i d f t).events := by
  intro h
  simp only [phaseCopy] at h
  repeat' split at h
  all_goals simp at h

lemma phaseRename_no_create (env : Env) (m : Machine)
    (msg : String) (t : Int) (p : VMPayload) :
    Event.createVM p ∉ (phaseRename env m msg t).events := by
  intro h
  simp only [phaseRename] at h
  repeat' split at h
  all_goals simp at h

lemma deleteFinalize_no_create (env : Env) (m : Machine) (evs : List Event) (p : VMPayload) :
    Event.createVM p ∈ (deleteFinalize env m evs).events → Event.createVM p ∈ evs := by
  intro h
  simp only [deleteFinalize] at h
  repeat' split at h
  all_goals (simp at h; try exact h)

lemma deleteDisk_no_create (env : Env) (m : Machine) (evs : List Event) (p : VMPayload) :
    Event.createVM p ∈ (deleteDisk env m evs).events → Event.createVM p ∈ evs := by
  intro h
  simp only [deleteDisk] at h
  repeat' split at h
  all_goals (try replace h := deleteFinalize_no_create _ _ _ _ h)
  all_goals (simp at h; try exact h)

lemma waitForStop_no_create (env : Env) (v : Int) (n i : Nat) (p : VMPayload) :
    Event.createVM p ∉ waitForStop env v i n := by
  intro h
  rcases waitForStop_mem env v n i _ h with h2 | h2 <;> simp at h2

lemma reconcileDelete_no_create (env : Env) (m : Machine) (p : VMPayload) :
    Event.createVM p ∉ (reconcileDelete env m).events := by
  intro h
  simp only [reconcileDelete] at h
  repeat' split at h
  all_goals (try replace h := deleteDisk_no_create _ _ _ _ h)
  all_goals
    first
      | exact List.not_mem_nil _ h
      | (rcases List.mem_cons.mp h with h | h
         · exact absurd h (by simp)
         · rcases List.mem_append.mp h with h | h
           · exact waitForStop_no_create env _ _ _ _ h
           · exact absurd h (by simp))

lemma reconcileNormal_no_create (cfg : ReconcilerCfg) (env : Env) (m : Machine)
    (v : Int) (p : VMPayload) (hvm : m.status.vmID = some v) :
    Event.createVM p ∉ (reconcileNormal cfg env m).events := by
  intro h
  simp only [reconcileNormal] at h
  repeat' split at h
  all_goals first
    | exact phaseStart_no_create _ _ _ _ _ h
    | exact phaseDownload_no_create _ _ _ _ _ _ _ _ h
    | exact phaseExtract_no_create _ _ _ _ _ _ _ _ h
    | exact phaseCopy_no_create _ _ _ _ _ _ _ _ h
    | exact phaseRename_no_create _ _ _ _ _ h
    | exact phaseResize_no_create _ _ _ _ v _ hvm h
    | simp at h

lemma vmDiscovery_getLan (env : Env) (m : Machine) (evs : List Event) (v : Int) (vm : VMInfo)
    (haddr : m.status.addresses = []) (hgv : env.getVM v = .ok vm) :
    Event.getLan "pub" ∈ (vmDiscovery env m evs v).events := by
  simp only [vmDiscovery, haddr, hgv]
  repeat' split
  all_goals simp_all

/-- Claim C2: whenever a VM identifier is already persisted, no invocation —
whatever the environment's answers — ever calls create-vm again; and from
the resize-done state with no addresses discovered yet, the invocation goes
on to query the LAN browser (network discovery). -/
theorem C2_no_duplicate_vm_creation (cfg : ReconcilerCfg) (env : Env) (m : Machine) (v : Int)
    (hvm : m.status.vmID = some v) :
    (∀ p, Event.createVM p ∉ (Reconcile cfg env m).events) ∧
    (∀ (c : Condition) (t : Int) (vm : VMInfo),
      m.deleting = false →
      containsString m.finalizers FreeboxMachineFinalizer = true →
      m.spec.imageURL ≠ "" →
      findStatusCondition m.status.conditions "ImagePhase" = some c →
      parsePhaseMsg c.message = ("resize", t) →
      t ≠ 0 →
      env.getDiskTask t = .ok ⟨true, false⟩ →
      env.statusUpdateRes = .ok () →
      m.status.addresses = [] →
      env.getVM v = .ok vm →
      Event.getLan "pub" ∈ (Reconcile cfg env m).events) := by
  constructor
  · intro p h
    simp only [Reconcile] at h
    repeat' split at h
    · exact reconcileDelete_no_create _ _ _ h
    · simp at h
    · exact reconcileNormal_no_create _ _ _ v _ hvm h
    · simp at h
    · rcases List.mem_cons.mp h with h2 | h2
      · simp at h2
      · exact reconcileNormal_no_create cfg env
          { m with finalizers := m.finalizers ++ [FreeboxMachineFinalizer] } v p hvm h2
  · intro c t vm hdel hfin hurl hcond hmsg ht hdt hsu haddr hgv
    have hmain := vmDiscovery_getLan env
      (mSetCond m ⟨"ImageReady", true, "ImageReady",
        "Image downloaded, extracted, renamed, and resized"⟩)
      ([Event.getDiskTask t] ++
        [Event.statusUpdate (mSetCond m ⟨"ImageReady", true, "ImageReady",
          "Image downloaded, extracted, renamed, and resized"⟩).status]) v vm
      (by simpa using haddr) hgv
    simpa [Reconcile, reconcileNormal, phaseResize, afterResize,
      hdel, hfin, hurl, hcond, hmsg, ht, hdt, hsu, hvm] using hmain

/-- Machine re-entering after a crash: VM 5 recorded, resize task 4
persisted, no addresses yet. -/
def mGuard : Machine :=
  { machineBase with status := { machineBase.status with
      conditions := [⟨"ImagePhase", false, "Resizing", "phase=resize task_id=4"⟩],
      vmID := some 5 } }

/-- Environment for the guard scenario: resize done, VM query returns the
MAC, the LAN browser lists it (different case) with one IPv4 entry. -/
def envGuard : Env :=
  { envBase with
    getDiskTask := fun _ => .ok ⟨true, false⟩
    getVM := fun _ => .ok ⟨5, "node1", "AA:BB:CC:DD:EE:FF", "running"⟩
    getLan := fun _ => .ok [⟨"aa:bb:cc:dd:ee:ff", [⟨"ipv4", "192.168.1.60"⟩]⟩] }

/-- Witness for C2: re-entry with VM 5 recorded creates nothing and reaches
the LAN query. -/
theorem C2_no_duplicate_vm_creation_witness :
    Event.createVM ⟨"node1", "/Freebox/VMs/node1.qcow2", "qcow2", 4096, 2, "unknown", true, "d"⟩ ∉
      (Reconcile cfgBase envGuard mGuard).events ∧
    Event.getLan "pub" ∈ (Reconcile cfgBase envGuard mGuard).events := by
  have h := C2_no_duplicate_vm_creation cfgBase envGuard mGuard 5 (by decide)
  exact ⟨h.1 _,
    h.2 ⟨"ImagePhase", false, "Resizing", "phase=resize task_id=4"⟩ 4
      ⟨5, "node1", "AA:BB:CC:DD:EE:FF", "running"⟩
      (by decide) (by decide) (by decide) (by decide) (by decide) (by decide)
      rfl rfl (by decide) rfl⟩

/-! ## Claim C9: providerID is written at most once -/

lemma finishProvision_machine_spec (env : Env) (m : Machine) (evs : List Event) :
    (finishProvision env m evs).machine.spec = m.spec := by
  simp only [finishProvision]
  repeat' split
  all_goals rfl

lemma vmDiscovery_machine_spec (env : Env) (m : Machine) (evs : List Event) (v : Int) :
    (vmDiscovery env m evs v).machine.spec = m.spec := by
  simp only [vmDiscovery]
  repeat' split
  all_goals rfl

lemma vmStartAndDiscover_machine_spec (env : Env) (m : Machine) (evs : List Event)
    (f : String) (vm : VMInfo) :
    (vmStartAndDiscover env m evs f vm).machine.spec = m.spec := by
  simp only [vmStartAndDiscover]
  repeat' split
  all_goals first
    | rfl
    | exact finishProvision_machine_spec _ _ _

lemma vmAfterCreate_machine_spec (env : Env) (m : Machine) (evs : List Event)
    (f : String) (vm : VMInfo) (hpid : m.spec.providerID ≠ "") :
    (vmAfterCreate env m evs f vm).machine.spec = m.spec := by
  simp only [vmAfterCreate]
  rw [if_neg hpid]
  exact vmStartAndDiscover_machine_spec _ _ _ _ _

lemma vmCreate_machine_spec (env : Env) (m : Machine) (evs : List Event)
    (f : String) (hpid : m.spec.providerID ≠ "") :
    (vmCreate env m evs f).machine.spec = m.spec := by
  simp only [vmCreate]
  repeat' split
  all_goals first
    | rfl
    | exact vmAfterCreate_machine_spec _ _ _ _ _ hpid

lemma afterResize_machine_spec (env : Env) (m : Machine) (evs : List Event)
    (f : String) (hpid : m.spec.providerID ≠ "") :
    (afterResize env m evs f).machine.spec = m.spec := by
  simp only [afterResize]
  repeat' split
  all_goals first
    | exact vmDiscovery_machine_spec _ _ _ _
    | exact vmCreate_machine_spec _ _ _ _ hpid

lemma phaseResize_machine_spec (env : Env) (m : Machine)
    (f : String) (t : Int) (hpid : m.spec.providerID ≠ "") :
    (phaseResize env m f t).machine.spec = m.spec := by
  simp only [phaseResize]
  repeat' split
  all_goals first
    | rfl
    | exact afterResize_machine_spec _ _ _ _ hpid

lemma phaseStart_machine_spec (cfg : ReconcilerCfg) (env : Env) (m : Machine) (i : String) :
    (phaseStart cfg env m i).machine.spec = m.spec := by
  simp only [phaseStart]
  repeat' split
  all_goals rfl

lemma phaseDownload_machine_spec (cfg : ReconcilerCfg) (env : Env) (m : Machine)
    (i d f : String) (t : Int) :
    (phaseDownload cfg env m i d f t).machine.spec = m.spec := by
  simp only [phaseDownload]
  repeat' split
  all_goals rfl

lemma phaseExtract_machine_spec (cfg : ReconcilerCfg) (env : Env) (m : Machine)
    (i d f : String) (t : Int) :
    (phaseExtract cfg env m i d f t).machine.spec = m.spec := by
  simp only [phaseExtract]
  repeat' split
  all_goals rfl

lemma phaseCopy_machine_spec (cfg : ReconcilerCfg) (env : Env) (m : Machine)
    (i d f : String) (t : Int) :
    (phaseCopy cfg env m i d f t).machine.spec = m.spec := by
  simp only [phaseCopy]
  repeat' split
  all_goals rfl

lemma phaseRename_machine_spec (env : Env) (m : Machine) (msg : String) (t : Int) :
    (phaseRename env m msg t).machine.spec = m.spec := by
  simp only [phaseRename]
  repeat' split
  all_goals rfl

lemma reconcileNormal_machine_spec (cfg : ReconcilerCfg) (env : Env) (m : Machine)
    (hpid : m.spec.providerID ≠ "") :
    (reconcileNormal cfg env m).machine.spec = m.spec := by
  simp only [reconcileNormal]
  repeat' split
  all_goals first
    | rfl
    | exact phaseStart_machine_spec _ _ _ _
    | exact phaseDownload_machine_spec _ _ _ _ _ _ _
    | exact phaseExtract_machine_spec _ _ _ _ _ _ _
    | exact phaseCopy_machine_spec _ _ _ _ _ _ _
    | exact phaseRename_machine_spec _ _ _ _
    | exact phaseResize_machine_spec _ _ _ _ hpid

lemma deleteFinalize_machine_spec (env : Env) (m : Machine) (evs : List Event) :
    (deleteFinalize env m evs).machine.spec = m.spec := by
  simp only [deleteFinalize]
  repeat' split
  all_goals rfl

lemma deleteDisk_machine_spec (env : Env) (m : Machine) (evs : List Event) :
    (deleteDisk env m evs).machine.spec = m.spec := by
  simp only [deleteDisk]
  repeat' split
  all_goals first
    | rfl
    | exact deleteFinalize_machine_spec _ _ _

lemma reconcileDelete_machine_spec (env : Env) (m : Machine) :
    (reconcileDelete env m).machine.spec = m.spec := by
  simp only [reconcileDelete]
  repeat' split
  all_goals first
    | rfl
    | exact deleteDisk_machine_spec _ _ _

/-- Claim C9: a non-empty `providerID` is never overwritten — whatever the
invocation does, the machine it ends with carries the original value. -/
theorem C9_providerID_written_once (cfg : ReconcilerCfg) (env : Env) (m : Machine)
    (hpid : m.spec.providerID ≠ "") :
    (Reconcile cfg env m).machine.spec.providerID = m.spec.providerID := by
  simp only [Reconcile]
  repeat' split
  all_goals first
    | rfl
    | rw [reconcileDelete_machine_spec]
    | rw [reconcileNormal_machine_spec cfg env m hpid]
    | rw [show (Reconcile cfg env m).machine.spec.providerID = m.spec.providerID from rfl]
    | exact congrArg MachineSpec.providerID
        (reconcileNormal_machine_spec cfg env
          { m with finalizers := m.finalizers ++ [FreeboxMachineFinalizer] } hpid)

/-- Machine mid-pipeline whose providerID is already set. -/
def mPid : Machine :=
  { mC1 with spec := { mC1.spec with providerID := "freebox://99" } }

/-- Witness for C9: running the full create-and-start invocation with a
pre-set providerID leaves it untouched. -/
theorem C9_providerID_written_once_witness :
    (Reconcile cfgBase envC1 mPid).machine.spec.providerID = "freebox://99" :=
  C9_providerID_written_once cfgBase envC1 mPid (by decide)

/-! ## Claim C3: idempotent re-entry, at most one outstanding submission -/

/-- The pipeline submission operations (download, extract, copy, move,
resize). -/
def isPipelineSubmit : Event → Bool
  | .addDownloadTask _ _ _ => true
  | .extractFile _ _ => true
  | .copyFiles _ _ => true
  | .moveFiles _ _ => true
  | .resizeDisk _ _ => true
  | _ => false

lemma mem_of_mem_append_not_submit {e : Event} {evs ex : List Event}
    (he : e ∈ evs ++ ex) (hsub : isPipelineSubmit e = true)
    (hex : ∀ x ∈ ex, isPipelineSubmit x = false) : e ∈ evs := by
  rcases List.mem_append.mp he with h | h
  · exact h
  · have hx := hex e h
    rw [hsub] at hx
    cases hx

lemma finishProvision_no_submit (env : Env) (m : Machine) (evs : List Event) (e : Event)
    (hsub : isPipelineSubmit e = true) :
    e ∈ (finishProvision env m evs).events → e ∈ evs := by
  intro he
  simp only [finishProvision] at he
  repeat' split at he
  all_goals
    (repeat' replace he := mem_of_mem_append_not_submit he hsub (by simp [isPipelineSubmit]))
  all_goals exact he

lemma vmDiscovery_no_submit (env : Env) (m : Machine) (evs : List Event) (v : Int) (e : Event)
    (hsub : isPipelineSubmit e = true) :
    e ∈ (vmDiscovery env m evs v).events → e ∈ evs := by
  intro he
  simp only [vmDiscovery] at he
  repeat' split at he
  all_goals
    (repeat' replace he := mem_of_mem_append_not_submit he hsub (by simp [isPipelineSubmit]))
  all_goals exact he

lemma vmStartAndDiscover_no_submit (env : Env) (m : Machine) (evs : List Event)
    (f : String) (vm : VMInfo) (e : Event) (hsub : isPipelineSubmit e = true) :
    e ∈ (vmStartAndDiscover env m evs f vm).events → e ∈ evs := by
  intro he
  simp only [vmStartAndDiscover] at he
  repeat' split at he
  all_goals (try replace he := finishProvision_no_submit _ _ _ _ hsub he)
  all_goals
    (repeat' replace he := mem_of_mem_append_not_submit he hsub (by simp [isPipelineSubmit]))
  all_goals exact he

lemma vmAfterCreate_no_submit (env : Env) (m : Machine) (evs : List Event)
    (f : String) (vm : VMInfo) (e : Event) (hsub : isPipelineSubmit e = true) :
    e ∈ (vmAfterCreate env m evs f vm).events → e ∈ evs := by
  intro he
  simp only [vmAfterCreate] at he
  repeat' split at he
  all_goals (try replace he := vmStartAndDiscover_no_submit _ _ _ _ _ _ hsub he)
  all_goals
    (repeat' replace he := mem_of_mem_append_not_submit he hsub (by simp [isPipelineSubmit]))
  all_goals exact he

lemma vmCreate_no_submit (env : Env) (m : Machine) (evs : List Event)
    (f : String) (e : Event) (hsub : isPipelineSubmit e = true) :
    e ∈ (vmCreate env m evs f).events → e ∈ evs := by
  intro he
  simp only [vmCreate] at he
  repeat' split at he
  all_goals (try replace he := vmAfterCreate_no_submit _ _ _ _ _ _ hsub he)
  all_goals
    (repeat' replace he := mem_of_mem_append_not_submit he hsub (by simp [isPipelineSubmit]))
  all_goals exact he

lemma afterResize_no_submit (env : Env) (m : Machine) (evs : List Event)
    (f : String) (e : Event) (hsub : isPipelineSubmit e = true) :
    e ∈ (afterResize env m evs f).events → e ∈ evs := by
  intro he
  simp only [afterResize] at he
  split at he
  · exact vmDiscovery_no_submit _ _ _ _ _ hsub he
  · exact vmCreate_no_submit _ _ _ _ _ hsub he

lemma finishProvision_extend (env : Env) (m : Machine) (evs : List Event) (e : Event)
    (he : e ∈ evs) : e ∈ (finishProvision env m evs).events := by
  simp only [finishProvision]
  repeat' split
  all_goals simp [he]

lemma vmDiscovery_extend (env : Env) (m : Machine) (evs : List Event) (v : Int) (e : Event)
    (he : e ∈ evs) : e ∈ (vmDiscovery env m evs v).events := by
  simp only [vmDiscovery]
  repeat' split
  all_goals simp [he]

lemma vmStartAndDiscover_extend (env : Env) (m : Machine) (evs : List Event)
    (f : String) (vm : VMInfo) (e : Event) (he : e ∈ evs) :
    e ∈ (vmStartAndDiscover env m evs f vm).events := by
  simp only [vmStartAndDiscover]
  repeat' split
  all_goals first
    | exact finishProvision_extend _ _ _ _ (by simp [he])
    | simp [he]

lemma vmAfterCreate_extend (env : Env) (m : Machine) (evs : List Event)
    (f : String) (vm : VMInfo) (e : Event) (he : e ∈ evs) :
    e ∈ (vmAfterCreate env m evs f vm).events := by
  simp only [vmAfterCreate]
  repeat' split
  all_goals first
    | exact vmStartAndDiscover_extend _ _ _ _ _ _ (by simp [he])
    | simp [he]

lemma vmCreate_extend (env : Env) (m : Machine) (evs : List Event)
    (f : String) (e : Event) (he : e ∈ evs) :
    e ∈ (vmCreate env m evs f).events := by
  simp only [vmCreate]
  repeat' split
  all_goals first
    | exact vmAfterCreate_extend _ _ _ _ _ _ (by simp [he])
    | simp [he]

lemma afterResize_extend (env : Env) (m : Machine) (evs : List Event)
    (f : String) (e : Event) (he : e ∈ evs) :
    e ∈ (afterResize env m evs f).events := by
  simp only [afterResize]
  split
  · exact vmDiscovery_extend _ _ _ _ _ he
  · exact vmCreate_extend _ _ _ _ _ he

/-- Claim C3: the entry point is a function of the persisted state and the
remote responses (two invocations from the same state agree), and for every
phase whose persisted task id is non-zero the invocation polls exactly that
task and never submits the phase's remote operation again. -/
theorem C3_idempotent_reentry (cfg : ReconcilerCfg) (env : Env) (m : Machine) (c : Condition)
    (hdel : m.deleting = false)
    (hfin : containsString m.finalizers FreeboxMachineFinalizer = true)
    (hurl : m.spec.imageURL ≠ "")
    (hcond : findStatusCondition m.status.conditions "ImagePhase" = some c) :
    (∀ out1 out2 : RecOut, out1 = Reconcile cfg env m → out2 = Reconcile cfg env m →
      out1 = out2) ∧
    (∀ t : Int, parsePhaseMsg c.message = ("download", t) →
      (∀ u d f, Event.addDownloadTask u d f ∉ (Reconcile cfg env m).events) ∧
      Event.getDownloadTask t ∈ (Reconcile cfg env m).events) ∧
    (∀ t : Int, parsePhaseMsg c.message = ("extract", t) → t ≠ 0 →
      (∀ s d, Event.extractFile s d ∉ (Reconcile cfg env m).events) ∧
      Event.getFsTask t ∈ (Reconcile cfg env m).events) ∧
    (∀ t : Int, parsePhaseMsg c.message = ("copy", t) → t ≠ 0 →
      (∀ ss d, Event.copyFiles ss d ∉ (Reconcile cfg env m).events) ∧
      Event.getFsTask t ∈ (Reconcile cfg env m).events) ∧
    (∀ (t0 t : Int) (s d : String), parsePhaseMsg c.message = ("rename", t0) →
      parseRenameMsg c.message t0 = (t, s, d) → t ≠ 0 →
      (∀ ss dd, Event.moveFiles ss dd ∉ (Reconcile cfg env m).events) ∧
      Event.getFsTask t ∈ (Reconcile cfg env m).events) ∧
    (∀ t : Int, parsePhaseMsg c.message = ("resize", t) → t ≠ 0 →
      (∀ pth sz, Event.resizeDisk pth sz ∉ (Reconcile cfg env m).events) ∧
      Event.getDiskTask t ∈ (Reconcile cfg env m).events) := by
  refine ⟨?_, ?_, ?_, ?_, ?_, ?_⟩
  · intro out1 out2 h1 h2
    rw [h1, h2]
  · intro t hmsg
    have hred : Reconcile cfg env m = phaseDownload cfg env m (pathBase m.spec.imageURL)
        (pathJoin cfg.freeboxDownloadDir (pathBase m.spec.imageURL))
        (pathJoin cfg.vmStoragePath (m.spec.name ++ vmImageExt (pathBase m.spec.imageURL)))
        t := by
      simp [Reconcile, reconcileNormal, hdel, hfin, hurl, hcond, hmsg]
    rw [hred]
    constructor
    · intro u d f he
      simp only [phaseDownload] at he
      repeat' split at he
      all_goals simp at he
    · simp only [phaseDownload]
      repeat' split
      all_goals simp
  · intro t hmsg ht
    have hred : Reconcile cfg env m = phaseExtract cfg env m (pathBase m.spec.imageURL)
        (pathJoin cfg.freeboxDownloadDir (pathBase m.spec.imageURL))
        (pathJoin cfg.vmStoragePath (m.spec.name ++ vmImageExt (pathBase m.spec.imageURL)))
        t := by
      simp [Reconcile, reconcileNormal, hdel, hfin, hurl, hcond, hmsg]
    rw [hred]
    constructor
    · intro s d he
      simp only [phaseExtract] at he
      rw [if_neg ht] at he
      repeat' split at he
      all_goals simp at he
    · simp only [phaseExtract]
      rw [if_neg ht]
      repeat' split
      all_goals simp
  · intro t hmsg ht
    have hred : Reconcile cfg env m = phaseCopy cfg env m (pathBase m.spec.imageURL)
        (pathJoin cfg.freeboxDownloadDir (pathBase m.spec.imageURL))
        (pathJoin cfg.vmStoragePath (m.spec.name ++ vmImageExt (pathBase m.spec.imageURL)))
        t := by
      simp [Reconcile, reconcileNormal, hdel, hfin, hurl, hcond, hmsg]
    rw [hred]
    constructor
    · intro ss d he
      simp only [phaseCopy] at he
      rw [if_neg ht] at he
      repeat' split at he
      all_goals simp at he
    · simp only [phaseCopy]
      rw [if_neg ht]
      repeat' split
      all_goals simp
  · intro t0 t s d hmsg hprs ht
    have hred : Reconcile cfg env m = phaseRename env m c.message t0 := by
      simp [Reconcile, reconcileNormal, hdel, hfin, hurl, hcond, hmsg]
    rw [hred]
    constructor
    · intro ss dd he
      simp only [phaseRename, hprs] at he
      rw [if_neg ht] at he
      repeat' split at he
      all_goals simp at he
    · simp only [phaseRename, hprs]
      rw [if_neg ht]
      repeat' split
      all_goals simp
  · intro t hmsg ht
    have hred : Reconcile cfg env m = phaseResize env m
        (pathJoin cfg.vmStoragePath (m.spec.name ++ vmImageExt (pathBase m.spec.imageURL)))
        t := by
      simp [Reconcile, reconcileNormal, hdel, hfin, hurl, hcond, hmsg]
    rw [hred]
    constructor
    · intro pth sz he
      simp only [phaseResize] at he
      rw [if_neg ht] at he
      repeat' split at he
      all_goals (try replace he := afterResize_no_submit _ _ _ _ (Event.resizeDisk pth sz) rfl he)
      all_goals simp at he
    · simp only [phaseResize]
      rw [if_neg ht]
      repeat' split
      all_goals first
        | exact afterResize_extend _ _ _ _ _ (by simp)
        | simp

/-- Machine with a recorded extraction task, for C3's witness. -/
def mExtract : Machine :=
  { machineBase with status := { machineBase.status with
      conditions := [⟨"ImagePhase", false, "Extracting", "phase=extract task_id=21"⟩] } }

/-- Witness for C3: a persisted extract task id 21 is polled, not
re-submitted. -/
theorem C3_idempotent_reentry_witness :
    Event.extractFile "/Freebox/Downloads/debian.qcow2" "/Freebox/VMs" ∉
      (Reconcile cfgBase envBase mExtract).events ∧
    Event.getFsTask 21 ∈ (Reconcile cfgBase envBase mExtract).events := by
  have h := C3_idempotent_reentry cfgBase envBase mExtract
    ⟨"ImagePhase", false, "Extracting", "phase=extract task_id=21"⟩
    (by decide) (by decide) (by decide) (by decide)
  have h2 := h.2.2.1 21 (by decide) (by decide)
  exact ⟨h2.1 _ _, h2.2⟩

/-! ## Claim C4: final image path convention -/

lemma lowerChar_upper_ne (c : Char) (h1 : 65 ≤ c.toNat) (h2 : c.toNat ≤ 90)
    (d : Char) (hd : d = '.' ∨ d = '/') : Char.ofNat (c.toNat + 32) ≠ d := by
  intro hl
  generalize hq : c.toNat = n at h1 h2 hl
  rcases hd with hd | hd <;> subst hd <;> (interval_cases n <;> exact absurd hl (by decide))

lemma lowerChar_dot_iff (c : Char) : lowerChar c = '.' ↔ c = '.' := by
  unfold lowerChar
  split
  · rename_i h
    constructor
    · intro hl
      exact absurd hl (lowerChar_upper_ne c h.1 h.2 '.' (Or.inl rfl))
    · intro hc
      subst hc
      exact absurd h (by decide)
  · exact Iff.rfl

lemma lowerChar_slash_iff (c : Char) : lowerChar c = '/' ↔ c = '/' := by
  unfold lowerChar
  split
  · rename_i h
    constructor
    · intro hl
      exact absurd hl (lowerChar_upper_ne c h.1 h.2 '/' (Or.inr rfl))
    · intro hc
      subst hc
      exact absurd h (by decide)
  · exact Iff.rfl

lemma extAux_map_lower (rev : List Char) :
    ∀ acc, (extAux acc rev).map lowerChar = extAux (acc.map lowerChar) (rev.map lowerChar) := by
  induction rev with
  | nil => intro acc; rfl
  | cons c rest ih =>
    intro acc
    by_cases hsl : c = '/'
    · subst hsl
      simp [extAux, lowerChar]
    · by_cases hdot : c = '.'
      · subst hdot
        simp [extAux, lowerChar]
      · have hsl2 : lowerChar c ≠ '/' := fun hx => hsl ((lowerChar_slash_iff c).mp hx)
        have hdot2 : lowerChar c ≠ '.' := fun hx => hdot ((lowerChar_dot_iff c).mp hx)
        simp only [extAux, List.map, if_neg hsl, if_neg hdot, if_neg hsl2, if_neg hdot2]
        exact ih (c :: acc)

/-- `strings.ToLower` commutes with `path.Ext`. -/
lemma toLowerS_pathExt (s : String) : toLowerS (pathExt s) = pathExt (toLowerS s) := by
  unfold toLowerS pathExt lowers
  rw [extAux_map_lower s.data.reverse []]
  rw [List.map_reverse]
  rfl

lemma extAux_isSuffix (rev : List Char) :
    ∀ acc, extAux acc rev = [] ∨ ∃ t, t ++ extAux acc rev = rev.reverse ++ acc := by
  induction rev with
  | nil => intro acc; exact Or.inl rfl
  | cons c rest ih =>
    intro acc
    by_cases hsl : c = '/'
    · subst hsl
      simp [extAux]
    · by_cases hdot : c = '.'
      · subst hdot
        right
        refine ⟨rest.reverse, ?_⟩
        simp [extAux]
      · rcases ih (c :: acc) with h | ⟨t, ht⟩
        · left
          simpa [extAux, if_neg hsl, if_neg hdot] using h
        · right
          refine ⟨t, ?_⟩
          simp only [extAux, if_neg hsl, if_neg hdot]
          rw [ht]
          simp

lemma extAux_of_append (t e : List Char)
    (he : e = ".xz".data ∨ e = ".gz".data ∨ e = ".bz2".data ∨ e = ".zip".data ∨
          e = ".tar".data ∨ e = ".qcow2".data) :
    extAux [] ((t ++ e).reverse) = e := by
  rcases he with he | he | he | he | he | he <;> subst he <;>
    simp [List.reverse_append, extAux]

lemma suffix_gives_ext (name e : String)
    (he : e = ".xz" ∨ e = ".gz" ∨ e = ".bz2" ∨ e = ".zip" ∨ e = ".tar" ∨ e = ".qcow2")
    (hsuf : e.data.isSuffixOf (lowers name.data) = true) :
    toLowerS (pathExt name) = e := by
  rw [toLowerS_pathExt]
  obtain ⟨t, ht⟩ := List.isSuffixOf_iff_suffix.mp hsuf
  show (⟨extAux [] (toLowerS name).data.reverse⟩ : String) = e
  have hdat : (toLowerS name).data = t ++ e.data := by
    show lowers name.data = t ++ e.data
    exact ht.symm
  rw [hdat, extAux_of_append t e.data (by rcases he with h | h | h | h | h | h <;> subst h <;> simp)]

lemma ext_gives_suffix (name e : String) (hne : e.data ≠ [])
    (hext : toLowerS (pathExt name) = e) :
    e.data.isSuffixOf (lowers name.data) = true := by
  rw [toLowerS_pathExt] at hext
  have hdata : extAux [] (lowers name.data).reverse = e.data := by
    have := congrArg String.data hext
    simpa [pathExt, toLowerS] using this
  rcases extAux_isSuffix ((lowers name.data).reverse) [] with h | ⟨t, ht⟩
  · rw [hdata] at h
    exact absurd h hne
  · rw [hdata, List.reverse_reverse, List.append_nil] at ht
    exact List.isSuffixOf_iff_suffix.mpr ⟨t, ht⟩

/-- Bridge: the code's last-extension test agrees with the spec's
case-insensitive trailing-suffix search. -/
lemma isCompressedFile_eq_findSome (name : String) :
    isCompressedFile name =
      (compressedExts.find? (fun e => e.data.isSuffixOf (lowers name.data))).isSome := by
  by_cases hc : ∃ e ∈ compressedExts, e.data.isSuffixOf (lowers name.data) = true
  · obtain ⟨e, hmem, hsuf⟩ := hc
    have hfind : (compressedExts.find? (fun e => e.data.isSuffixOf (lowers name.data))).isSome :=
      List.find?_isSome.mpr ⟨e, hmem, hsuf⟩
    rw [hfind]
    have hemem5 : e = ".xz" ∨ e = ".gz" ∨ e = ".bz2" ∨ e = ".zip" ∨ e = ".tar" := by
      simpa [compressedExts] using hmem
    have hext := suffix_gives_ext name e (by tauto) hsuf
    simp only [isCompressedFile, hext]
    rcases hemem5 with h | h | h | h | h <;> subst h <;> decide
  · have hfind : compressedExts.find? (fun e => e.data.isSuffixOf (lowers name.data)) = none := by
      rw [List.find?_eq_none]
      intro e hmem
      intro hsuf
      exact hc ⟨e, hmem, hsuf⟩
    rw [hfind]
    show isCompressedFile name = false
    by_contra hb
    have hc2 : isCompressedFile name = true := by
      cases hx : isCompressedFile name
      · exact absurd hx hb
      · rfl
    simp only [isCompressedFile, decide_eq_true_eq] at hc2
    rcases hc2 with h | h | h | h | h
    · exact hc ⟨".gz", by simp [compressedExts], ext_gives_suffix name ".gz" (by decide) h⟩
    · exact hc ⟨".xz", by simp [compressedExts], ext_gives_suffix name ".xz" (by decide) h⟩
    · exact hc ⟨".bz2", by simp [compressedExts], ext_gives_suffix name ".bz2" (by decide) h⟩
    · exact hc ⟨".zip", by simp [compressedExts], ext_gives_suffix name ".zip" (by decide) h⟩
    · exact hc ⟨".tar", by simp [compressedExts], ext_gives_suffix name ".tar" (by decide) h⟩

/-- Spec-side (§6 of the spec): strip at most one trailing
compressed-extension suffix, matched case-insensitively. -/
def specStripOnce (name : String) : String :=
  match compressedExts.find? (fun e => e.data.isSuffixOf (lowers name.data)) with
  | some e => ⟨name.data.take (name.data.length - e.data.length)⟩
  | none => name

/-- Spec-side final extension: extension of the stripped source filename,
defaulting to `".raw"` when empty. -/
def specFinalExt (filename : String) : String :=
  let ext := pathExt (specStripOnce filename)
  if ext = "" then ".raw" else ext

/-- The code's image extension equals the spec's. -/
lemma vmImageExt_eq_specFinalExt (filename : String) :
    vmImageExt filename = specFinalExt filename := by
  by_cases hc : isCompressedFile filename = true
  · have hsome : (compressedExts.find?
        (fun e => e.data.isSuffixOf (lowers filename.data))).isSome = true := by
      rw [← isCompressedFile_eq_findSome]
      exact hc
    obtain ⟨e, hfind⟩ := Option.isSome_iff_exists.mp hsome
    simp only [vmImageExt, specFinalExt, hc, if_true, removeCompressionExtension,
      stripCompressionSuffix, specStripOnce, hfind]
  · have hfalse : isCompressedFile filename = false := by
      cases hx : isCompressedFile filename
      · rfl
      · exact absurd hx hc
    have hnone : compressedExts.find?
        (fun e => e.data.isSuffixOf (lowers filename.data)) = none := by
      have := isCompressedFile_eq_findSome filename
      rw [hfalse] at this
      cases hx : compressedExts.find? (fun e => e.data.isSuffixOf (lowers filename.data))
      · rfl
      · rw [hx] at this
        simp at this
    simp only [vmImageExt, specFinalExt, hfalse, if_false, specStripOnce, hnone]
    rfl

lemma splitSlash_ne_nil (l : List Char) : splitSlash l ≠ [] := by
  cases l with
  | nil => simp [splitSlash]
  | cons c rest =>
    simp only [splitSlash]
    by_cases h : c = '/'
    · simp [h]
    · rw [if_neg h]
      cases hs : splitSlash rest <;> simp

lemma splitSlash_append (xs ys : List Char) :
    splitSlash (xs ++ '/' :: ys) = splitSlash xs ++ splitSlash ys := by
  induction xs with
  | nil => simp [splitSlash]
  | cons c rest ih =>
    simp only [List.cons_append, splitSlash]
    by_cases h : c = '/'
    · simp [h, ih]
    · rw [if_neg h, if_neg h]
      simp only [List.append_eq]
      rw [ih]
      cases hs : splitSlash rest with
      | nil => exact absurd hs (splitSlash_ne_nil rest)
      | cons h0 t0 => simp

lemma splitSlash_noslash (f : List Char) (hf : '/' ∉ f) : splitSlash f = [f] := by
  induction f with
  | nil => rfl
  | cons c rest ih =>
    simp only [splitSlash]
    have hc : c ≠ '/' := fun h => hf (h ▸ List.mem_cons_self c rest)
    rw [if_neg hc, ih (fun h => hf (List.mem_cons_of_mem c h))]

lemma joinSlash_splitSlash (s : List Char) : joinSlash (splitSlash s) = s := by
  induction s with
  | nil => rfl
  | cons c rest ih =>
    simp only [splitSlash]
    by_cases h : c = '/'
    · rw [if_pos h]
      cases hs : splitSlash rest with
      | nil => exact absurd hs (splitSlash_ne_nil rest)
      | cons h0 t0 =>
        rw [hs] at ih
        subst h
        simpa [joinSlash] using ih
    · rw [if_neg h]
      cases hs : splitSlash rest with
      | nil => exact absurd hs (splitSlash_ne_nil rest)
      | cons h0 t0 =>
        rw [hs] at ih
        cases t0 with
        | nil =>
          simpa [joinSlash] using ih
        | cons q qs =>
          simp only [joinSlash] at ih ⊢
          rw [List.cons_append, ih]

lemma joinSlash_append_single (l : List (List Char)) (x : List Char) (hl : l ≠ []) :
    joinSlash (l ++ [x]) = joinSlash l ++ '/' :: x := by
  induction l with
  | nil => exact absurd rfl hl
  | cons p ps ih =>
    cases ps with
    | nil => simp [joinSlash]
    | cons q qs =>
      have hne : q :: qs ≠ [] := by simp
      simp only [List.cons_append, joinSlash, List.append_eq]
      have ih2 := ih hne
      rw [List.cons_append] at ih2
      rw [ih2]
      simp [List.append_assoc]

/-- A path component that `Clean` passes through unchanged. -/
def isNormalPart (p : List Char) : Bool :=
  p ≠ [] ∧ p ≠ ['.'] ∧ p ≠ ['.', '.']

/-- A rooted, already-clean directory: starts with `/` and every component
is a normal one. -/
def rootedNormal (dir : String) : Bool :=
  match dir.data with
  | '/' :: rest => (splitSlash rest).all isNormalPart
  | _ => false

/-- A plain file name: non-empty, holds no slash and is not a dot
component. -/
def plainFile (f : String) : Bool :=
  f.data ≠ [] ∧ '/' ∉ f.data ∧ f.data ≠ ['.'] ∧ f.data ≠ ['.', '.']

lemma cleanParts_all_normal (rooted : Bool) (parts : List (List Char))
    (hall : parts.all isNormalPart = true) :
    ∀ acc, cleanParts rooted acc parts = acc.reverse ++ parts := by
  induction parts with
  | nil => intro acc; simp [cleanParts]
  | cons p ps ih =>
    intro acc
    have hp : isNormalPart p = true := by
      simp [List.all_cons] at hall
      exact by simpa [isNormalPart] using hall.1
    have hps : ps.all isNormalPart = true := by
      simp [List.all_cons] at hall
      simpa [List.all_eq_true, isNormalPart] using hall.2
    simp only [isNormalPart, decide_eq_true_eq] at hp
    obtain ⟨h1, h2, h3⟩ := hp
    simp only [cleanParts]
    rw [if_neg (by tauto), if_neg h3, ih hps (p :: acc)]
    simp

/-- `Clean` fixes a rooted path whose components are all normal. -/
lemma pathClean_rooted_all (rest : List Char)
    (hall : (splitSlash rest).all isNormalPart = true) :
    pathClean ⟨'/' :: rest⟩ = ⟨'/' :: rest⟩ := by
  have hcp := cleanParts_all_normal true (splitSlash rest) hall []
  simp only [List.reverse_nil, List.nil_append] at hcp
  simp [pathClean, splitSlash, cleanParts, hcp, splitSlash_ne_nil rest, joinSlash_splitSlash]

/-- Joining a plain file onto a rooted normalized directory is literal
concatenation with one slash. -/
lemma pathJoin_rooted_normal (dir f : String)
    (hdir : rootedNormal dir = true) (hf : plainFile f = true) :
    pathJoin dir f = dir ++ "/" ++ f := by
  simp only [plainFile, decide_eq_true_eq] at hf
  obtain ⟨hf1, hf2, hf3, hf4⟩ := hf
  unfold rootedNormal at hdir
  split at hdir
  · rename_i rest heq
    have hall : (splitSlash rest).all isNormalPart = true := hdir
    have hjoin : (dir ++ "/" ++ f).data = '/' :: (rest ++ '/' :: f.data) := by
      show (dir.data ++ "/".data) ++ f.data = _
      rw [heq, show "/".data = ['/'] from rfl]
      simp
    unfold pathJoin
    rw [if_neg (by rw [heq]; simp [hf1]), if_neg (by rw [heq]; simp), if_neg hf1]
    have hsd : dir.data ++ '/' :: f.data = '/' :: (rest ++ '/' :: f.data) := by
      rw [heq]
      rfl
    rw [hsd]
    have hall2 : (splitSlash (rest ++ '/' :: f.data)).all isNormalPart = true := by
      rw [splitSlash_append, splitSlash_noslash f.data hf2, List.all_append, hall]
      simp [isNormalPart, hf1, hf3, hf4]
    rw [pathClean_rooted_all _ hall2, ← hjoin]
  · simp at hdir

/-- Claim C4: for every source filename the image extension the reconciler
computes equals the spec's — the extension after stripping at most one
trailing compressed suffix (case-insensitive), defaulting to `.raw` — and
for a rooted normalized storage directory and a plain VM file name the
final image path is exactly `<vm-storage-dir>/<vm-name><ext>`. -/
theorem C4_final_image_path (filename : String) :
    vmImageExt filename = specFinalExt filename ∧
    (∀ (cfg : ReconcilerCfg) (vmName : String),
      rootedNormal cfg.vmStoragePath = true →
      plainFile (vmName ++ vmImageExt filename) = true →
      pathJoin cfg.vmStoragePath (vmName ++ vmImageExt filename) =
        cfg.vmStoragePath ++ "/" ++ (vmName ++ specFinalExt filename)) := by
  refine ⟨vmImageExt_eq_specFinalExt filename, ?_⟩
  intro cfg vmName hdir hf
  rw [pathJoin_rooted_normal _ _ hdir hf, vmImageExt_eq_specFinalExt filename]

/-- Witness for C4 at `image.raw.xz` with the concrete storage layout. -/
theorem C4_final_image_path_witness :
    vmImageExt "image.raw.xz" = specFinalExt "image.raw.xz" ∧
    pathJoin cfgBase.vmStoragePath ("node1" ++ vmImageExt "image.raw.xz") =
      cfgBase.vmStoragePath ++ "/" ++ ("node1" ++ specFinalExt "image.raw.xz") := by
  have h := C4_final_image_path "image.raw.xz"
  exact ⟨h.1, h.2 cfgBase "node1" (by decide) (by decide)⟩

/-! ## Claim C5: compression classification and disk type -/

lemma isCompressedFile_mem_iff (name : String) :
    isCompressedFile name = true ↔
      toLowerS (pathExt name) ∈ ([".gz", ".xz", ".bz2", ".zip", ".tar"] : List String) := by
  simp [isCompressedFile]

/-- Claim C5: on download completion a filename whose (lower-cased) last
extension lies in the fixed compressed set transitions to the extract
phase, any other filename to the copy phase; the concrete examples behave
as stated; and VM creation picks disk type qcow2 exactly when the final
image path ends in `.qcow2` (case-insensitively), raw otherwise. -/
theorem C5_classification_disk_type (cfg : ReconcilerCfg) (env : Env) (m : Machine)
    (c : Condition) (t : Int)
    (hdel : m.deleting = false)
    (hfin : containsString m.finalizers FreeboxMachineFinalizer = true)
    (hurl : m.spec.imageURL ≠ "")
    (hcond : findStatusCondition m.status.conditions "ImagePhase" = some c)
    (hmsg : parsePhaseMsg c.message = ("download", t))
    (hdone : env.getDownloadTask t = .ok "done") :
    (toLowerS (pathExt (pathBase m.spec.imageURL)) ∈
        ([".gz", ".xz", ".bz2", ".zip", ".tar"] : List String) →
      Reconcile cfg env m =
        (let m1 := mSetCond m ⟨"ImagePhase", false, "Extracting",
          "phase=extract task_id=0 src=" ++
            pathJoin cfg.freeboxDownloadDir (pathBase m.spec.imageURL) ++
            " dst=" ++ cfg.vmStoragePath⟩
         ⟨⟨1⟩, none, m1, [Event.getDownloadTask t, Event.statusUpdate m1.status]⟩)) ∧
    (toLowerS (pathExt (pathBase m.spec.imageURL)) ∉
        ([".gz", ".xz", ".bz2", ".zip", ".tar"] : List String) →
      Reconcile cfg env m =
        (let m1 := mSetCond m ⟨"ImagePhase", false, "Copying",
          "phase=copy task_id=0 src=" ++
            pathJoin cfg.freeboxDownloadDir (pathBase m.spec.imageURL) ++
            " dst=" ++ pathJoin cfg.vmStoragePath
              (m.spec.name ++ vmImageExt (pathBase m.spec.imageURL))⟩
         ⟨⟨1⟩, none, m1, [Event.getDownloadTask t, Event.statusUpdate m1.status]⟩)) ∧
    (isCompressedFile "image.raw.xz" = true ∧ vmImageExt "image.raw.xz" = ".raw" ∧
      isCompressedFile "image.qcow2" = false ∧ vmImageExt "image.qcow2" = ".qcow2" ∧
      isCompressedFile "image.img" = false ∧ vmImageExt "image.img" = ".img") ∧
    (∀ p : String, diskTypeFor p = "qcow2" ↔
      ".qcow2".data.isSuffixOf (lowers p.data) = true) := by
  refine ⟨?_, ?_, by decide, ?_⟩
  · intro hmem
    have hcomp : isCompressedFile (pathBase m.spec.imageURL) = true :=
      (isCompressedFile_mem_iff _).mpr hmem
    simp [Reconcile, reconcileNormal, phaseDownload, hdel, hfin, hurl, hcond, hmsg,
      hdone, hcomp]
  · intro hmem
    have hcomp : isCompressedFile (pathBase m.spec.imageURL) = false := by
      cases hx : isCompressedFile (pathBase m.spec.imageURL)
      · rfl
      · exact absurd ((isCompressedFile_mem_iff _).mp hx) hmem
    simp [Reconcile, reconcileNormal, phaseDownload, hdel, hfin, hurl, hcond, hmsg,
      hdone, hcomp]
  · intro p
    constructor
    · intro hq
      unfold diskTypeFor at hq
      by_cases hx : toLowerS (pathExt p) = ".qcow2"
      · exact ext_gives_suffix p ".qcow2" (by decide) hx
      · rw [if_neg hx] at hq
        exact absurd hq (by decide)
    · intro hs
      unfold diskTypeFor
      rw [suffix_gives_ext p ".qcow2" (by tauto) hs]
      rfl

/-- Environment whose download task reports done. -/
def envDlDone : Env := { envBase with getDownloadTask := fun _ => .ok "done" }

/-- Witness for C5: the qcow2 image (not compressed) takes the copy branch,
and the qcow2 disk type is selected exactly for `.qcow2` paths. -/
theorem C5_classification_disk_type_witness :
    Reconcile cfgBase envDlDone mDl =
      (let m1 := mSetCond mDl ⟨"ImagePhase", false, "Copying",
        "phase=copy task_id=0 src=" ++
          pathJoin cfgBase.freeboxDownloadDir (pathBase mDl.spec.imageURL) ++
          " dst=" ++ pathJoin cfgBase.vmStoragePath
            (mDl.spec.name ++ vmImageExt (pathBase mDl.spec.imageURL))⟩
       ⟨⟨1⟩, none, m1, [Event.getDownloadTask 5, Event.statusUpdate m1.status]⟩) ∧
    diskTypeFor "/Freebox/VMs/node1.qcow2" = "qcow2" := by
  have h := C5_classification_disk_type cfgBase envDlDone mDl
    ⟨"ImagePhase", false, "Downloading", "phase=download task_id=5"⟩ 5
    (by decide) (by decide) (by decide) (by decide) (by decide) rfl
  exact ⟨h.2.1 (by decide), (h.2.2.2 "/Freebox/VMs/node1.qcow2").mpr (by decide)⟩

/-! ## Claim C6: network discovery semantics -/

lemma findStatusCondition_set_eq (conds : List Condition) (c : Condition) :
    findStatusCondition (setStatusCondition conds c) c.type = some c := by
  unfold findStatusCondition setStatusCondition
  by_cases h : conds.any (fun x => x.type = c.type)
  · rw [if_pos h]
    induction conds with
    | nil => simp at h
    | cons a as ih =>
      rw [List.map_cons]
      by_cases ha : a.type = c.type
      · rw [if_pos ha]
        rw [List.find?_cons_of_pos _ (by simp)]
      · rw [if_neg ha]
        rw [List.find?_cons_of_neg _ (by simpa using ha)]
        have h2 : as.any (fun x => x.type = c.type) = true := by
          simp [List.any_cons] at h
          rcases h with h | h
          · exact absurd h ha
          · simpa using h
        exact ih h2
  · rw [if_neg h]
    induction conds with
    | nil =>
      rw [List.nil_append]
      rw [List.find?_cons_of_pos _ (by simp)]
    | cons a as ih =>
      simp [List.any_cons] at h
      rw [List.cons_append]
      rw [List.find?_cons_of_neg _ (by simpa using h.1)]
      have h2 : ¬ as.any (fun x => x.type = c.type) = true := by
        simpa using h.2
      exact ih h2

lemma findStatusCondition_set_ne (conds : List Condition) (c : Condition) (t : String)
    (ht : t ≠ c.type) :
    findStatusCondition (setStatusCondition conds c) t = findStatusCondition conds t := by
  have hct : ¬ c.type = t := fun hx => ht hx.symm
  unfold findStatusCondition setStatusCondition
  by_cases h : conds.any (fun x => x.type = c.type)
  · rw [if_pos h]
    clear h
    induction conds with
    | nil => rfl
    | cons a as ih =>
      rw [List.map_cons]
      by_cases ha : a.type = c.type
      · rw [if_pos ha]
        rw [List.find?_cons_of_neg (List.map (fun x => if x.type = c.type then c else x) as)
          (by simpa using hct)]
        rw [List.find?_cons_of_neg as (by simp [ha]; exact fun hx => ht hx.symm)]
        exact ih
      · rw [if_neg ha]
        by_cases hat : a.type = t
        · rw [List.find?_cons_of_pos (List.map (fun x => if x.type = c.type then c else x) as)
            (by simpa using hat)]
          rw [List.find?_cons_of_pos as (by simpa using hat)]
        · rw [List.find?_cons_of_neg (List.map (fun x => if x.type = c.type then c else x) as)
            (by simpa using hat)]
          rw [List.find?_cons_of_neg as (by simpa using hat)]
          exact ih
  · rw [if_neg h]
    induction conds with
    | nil =>
      rw [List.nil_append]
      rw [List.find?_cons_of_neg [] (by simpa using hct)]
    | cons a as ih =>
      simp [List.any_cons] at h
      rw [List.cons_append]
      have h2 : ¬ as.any (fun x => x.type = c.type) = true := by
        simpa using h.2
      by_cases hat : a.type = t
      · rw [List.find?_cons_of_pos (as ++ [c]) (by simpa using hat)]
        rw [List.find?_cons_of_pos as (by simpa using hat)]
      · rw [List.find?_cons_of_neg (as ++ [c]) (by simpa using hat)]
        rw [List.find?_cons_of_neg as (by simpa using hat)]
        exact ih h2

/-- Counterexample to claim C6 as stated: in the re-entry discovery
invocation (VM 5 recorded, resize done, matching LAN host with one IPv4)
the addresses are discovered and persisted, yet the provisioned flag is not
set and no Ready condition is written in that same invocation. -/
theorem C6_counterexample :
    (Reconcile cfgBase envGuard mGuard).machine.status.addresses =
      [⟨"InternalIP", "192.168.1.60"⟩] ∧
    Event.statusUpdate (Reconcile cfgBase envGuard mGuard).machine.status ∈
      (Reconcile cfgBase envGuard mGuard).events ∧
    (Reconcile cfgBase envGuard mGuard).machine.status.provisioned ≠ some true ∧
    findStatusCondition (Reconcile cfgBase envGuard mGuard).machine.status.conditions
      ConditionReady = none := by
  refine ⟨by decide, by decide, by decide, by decide⟩

/-- Claim C6 (amended): addresses are matched case-insensitively via the
lower-cased link-layer id and collected from the matching host's non-empty
IPv4 entries; in the *creation* invocation they are persisted together with
the Ready condition and provisioned=true; in a *re-entry* invocation only
the addresses are persisted (provisioned is left unchanged); with no match
or no IPv4 entry a fixed 10-second retry is requested. -/
theorem C6_network_discovery (cfg : ReconcilerCfg) (env : Env) (m : Machine)
    (c : Condition) (t : Int) (hosts : List LanHost)
    (hdel : m.deleting = false)
    (hfin : containsString m.finalizers FreeboxMachineFinalizer = true)
    (hurl : m.spec.imageURL ≠ "")
    (hcond : findStatusCondition m.status.conditions "ImagePhase" = some c)
    (hmsg : parsePhaseMsg c.message = ("resize", t))
    (ht : t ≠ 0)
    (hdt : env.getDiskTask t = .ok ⟨true, false⟩)
    (hsu : env.statusUpdateRes = .ok ())
    (haddr : m.status.addresses = [])
    (hlan : env.getLan "pub" = .ok hosts) :
    (∀ (v : Int) (vmi : VMInfo), m.status.vmID = some v → env.getVM v = .ok vmi →
      (∀ host, findMacHost vmi.mac hosts = some host → collectIPv4 host ≠ [] →
        (Reconcile cfg env m).machine.status.addresses = collectIPv4 host ∧
        Event.statusUpdate (Reconcile cfg env m).machine.status ∈
          (Reconcile cfg env m).events ∧
        (Reconcile cfg env m).machine.status.provisioned = m.status.provisioned ∧
        (Reconcile cfg env m).result.requeueAfter = 0 ∧
        (Reconcile cfg env m).error = none) ∧
      (∀ host, findMacHost vmi.mac hosts = some host → collectIPv4 host = [] →
        (Reconcile cfg env m).result.requeueAfter = 10) ∧
      (findMacHost vmi.mac hosts = none →
        (Reconcile cfg env m).result.requeueAfter = 10)) ∧
    (∀ (vmi : VMInfo) (sn bd : String) (host : LanHost),
      m.status.vmID = none → m.spec.providerID ≠ "" →
      env.owner = .ok (some ⟨some sn⟩) → env.getSecret sn = .ok (some bd) →
      (∀ p, env.createVM p = .ok vmi) → env.startVM vmi.id = .ok () →
      findMacHost vmi.mac hosts = some host → collectIPv4 host ≠ [] →
      (Reconcile cfg env m).machine.status.addresses = collectIPv4 host ∧
      (Reconcile cfg env m).machine.status.provisioned = some true ∧
      findStatusCondition (Reconcile cfg env m).machine.status.conditions ConditionReady =
        some ⟨ConditionReady, true, "InfrastructureReady",
          "Freebox machine infrastructure is ready"⟩ ∧
      Event.statusUpdate (Reconcile cfg env m).machine.status ∈
        (Reconcile cfg env m).events) := by
  constructor
  · intro v vmi hvm hgv
    refine ⟨?_, ?_, ?_⟩
    · intro host hfind hip
      simp [Reconcile, reconcileNormal, phaseResize, afterResize, vmDiscovery,
        hdel, hfin, hurl, hcond, hmsg, ht, hdt, hsu, hvm, haddr, hgv, hlan, hfind, hip]
    · intro host hfind hip
      simp [Reconcile, reconcileNormal, phaseResize, afterResize, vmDiscovery,
        hdel, hfin, hurl, hcond, hmsg, ht, hdt, hsu, hvm, haddr, hgv, hlan, hfind, hip]
    · intro hfind
      simp [Reconcile, reconcileNormal, phaseResize, afterResize, vmDiscovery,
        hdel, hfin, hurl, hcond, hmsg, ht, hdt, hsu, hvm, haddr, hgv, hlan, hfind]
  · intro vmi sn bd host hvm hpid hown hsec hcre hsta hfind hip
    have hred : Reconcile cfg env m =
        finishProvision env
          (let m2 := mSetCond m ⟨"ImageReady", true, "ImageReady",
            "Image downloaded, extracted, renamed, and resized"⟩
           let m3 := { m2 with status := { m2.status with
              vmID := some vmi.id,
              diskPath := pathJoin cfg.vmStoragePath
                (m.spec.name ++ vmImageExt (pathBase m.spec.imageURL)) } }
           { m3 with status := { m3.status with addresses := collectIPv4 host } })
          ([Event.getDiskTask t,
            Event.statusUpdate (mSetCond m ⟨"ImageReady", true, "ImageReady",
              "Image downloaded, extracted, renamed, and resized"⟩).status,
            Event.getOwner, Event.getSecret sn,
            Event.createVM ⟨m.name,
              pathJoin cfg.vmStoragePath (m.spec.name ++ vmImageExt (pathBase m.spec.imageURL)),
              diskTypeFor (pathJoin cfg.vmStoragePath
                (m.spec.name ++ vmImageExt (pathBase m.spec.imageURL))),
              m.spec.memoryMB, m.spec.vcpus, "unknown", true, bd⟩,
            Event.startVM vmi.id, Event.getLan "pub"]) := by
      simp [Reconcile, reconcileNormal, phaseResize, afterResize, vmCreate,
        vmAfterCreate, vmStartAndDiscover, hdel, hfin, hurl, hcond, hmsg, ht, hdt,
        hsu, hvm, hpid, hown, hsec, hcre, hsta, hlan, hfind, hip]
    rw [hred]
    simp only [finishProvision, hsu]
    refine ⟨by simp [mSetCond], by simp [mSetCond], ?_, by simp⟩
    rw [show ((mSetCond (mSetCond (mSetCond _ _) ⟨ConditionReady, true, "InfrastructureReady",
      "Freebox machine infrastructure is ready"⟩) ⟨"ImagePhase", true, "Completed",
      "phase=done"⟩).status.conditions) = setStatusCondition (setStatusCondition
        (setStatusCondition _ ⟨ConditionReady, true, "VMCreated", "VM created successfully"⟩)
        ⟨ConditionReady, true, "InfrastructureReady", "Freebox machine infrastructure is ready"⟩)
        ⟨"ImagePhase", true, "Completed", "phase=done"⟩ from rfl]
    rw [findStatusCondition_set_ne _ _ _ (by decide)]
    exact findStatusCondition_set_eq _ _

/-- Witness for C6 (amended): the re-entry discovery invocation persists
exactly the matching host's IPv4 address and leaves provisioned
unchanged. -/
theorem C6_network_discovery_witness :
    (Reconcile cfgBase envGuard mGuard).machine.status.addresses =
      [⟨"InternalIP", "192.168.1.60"⟩] ∧
    (Reconcile cfgBase envGuard mGuard).machine.status.provisioned = none := by
  have h := C6_network_discovery cfgBase envGuard mGuard
    ⟨"ImagePhase", false, "Resizing", "phase=resize task_id=4"⟩ 4
    [⟨"aa:bb:cc:dd:ee:ff", [⟨"ipv4", "192.168.1.60"⟩]⟩]
    (by decide) (by decide) (by decide) (by decide) (by decide) (by decide)
    rfl rfl (by decide) rfl
  have h2 := (h.1 5 ⟨5, "node1", "AA:BB:CC:DD:EE:FF", "running"⟩ (by decide) rfl).1
    ⟨"aa:bb:cc:dd:ee:ff", [⟨"ipv4", "192.168.1.60"⟩]⟩ (by decide) (by decide)
  constructor
  · rw [h2.1]
    decide
  · rw [h2.2.2.1]
    decide

end FreeboxCAPI
